import Mathlib

/-!
# Verification of the `pdf-word-counter` search pipeline

A shallow embedding of the word-counting pipeline of `pdf_word_counter`
(`search.py`, `utils.py`), together with theorems settling the frozen claims
about it.  Python strings are modelled as lists of characters; Python code
that can raise is modelled with `Except`; the PDF byte-level extraction
backends, the glob expansion and Unicode normalization are external
collaborators and enter as function parameters.
-/

namespace PdfWordCounter

/-- A text is a list of characters (code points), mirroring a Python `str`. -/
abbrev Text := List Char

/-- Shorthand to write a `Text` from a string literal. -/
def lit (s : String) : Text := s.toList

/-- The whitespace characters stripped by Python `str.strip()` (ASCII fragment). -/
def isPySpace (c : Char) : Bool :=
  c == ' ' || c == '\t' || c == '\n' || c == '\r' || c == '\x0b' || c == '\x0c'

/-- Python `str.strip()`: drop leading and trailing whitespace. -/
def pyStrip (s : Text) : Text :=
  ((s.dropWhile isPySpace).reverse.dropWhile isPySpace).reverse

/-!
## Word Matcher core

`re.findall(pat, s)` for a literal pattern `pat` scans `s` left to right and
counts non-overlapping occurrences, resuming after the end of each match.
`countNEGo p pt s k` performs this scan for the non-empty pattern `p :: pt`,
where `k` characters at the front of `s` still belong to an already counted
match (so the scan merely skips them).  The structural recursion on `s`
keeps the function kernel-reducible.
-/

/-- Scan for non-overlapping occurrences of the literal pattern `p :: pt`,
with `k` characters still to skip from a previous match. -/
def countNEGo (p : Char) (pt : Text) : Text → Nat → Nat
  | [], _ => 0
  | _ :: rest, k + 1 => countNEGo p pt rest k
  | c :: rest, 0 =>
    if (p :: pt).isPrefixOf (c :: rest) then
      1 + countNEGo p pt rest pt.length
    else
      countNEGo p pt rest 0

/-- `len(re.findall(pat, s))` for a *literal* pattern `pat` — a term free of
regex metacharacters, whose matches are exactly its non-overlapping
substring occurrences — including the zero-width behaviour of the empty
pattern (one match at every position).  Terms containing metacharacters
have different semantics; see `reCompile`/`findallCount` below for the
end-anchored extension of the modelled `re` fragment. -/
def countM (pat s : Text) : Nat :=
  match pat with
  | [] => s.length + 1
  | p :: pt => countNEGo p pt s 0

theorem countNEGo_nil (p : Char) (pt : Text) (k : Nat) :
    countNEGo p pt [] k = 0 := rfl

theorem countNEGo_succ (p : Char) (pt : Text) (c : Char) (rest : Text) (k : Nat) :
    countNEGo p pt (c :: rest) (k + 1) = countNEGo p pt rest k := rfl

theorem countNEGo_zero (p : Char) (pt : Text) (c : Char) (rest : Text) :
    countNEGo p pt (c :: rest) 0 =
      if (p :: pt).isPrefixOf (c :: rest) then 1 + countNEGo p pt rest pt.length
      else countNEGo p pt rest 0 := rfl

/-- Skipping `k` characters is the same as scanning the `k`-dropped text. -/
theorem countNEGo_skip (p : Char) (pt : Text) :
    ∀ (s : Text) (k : Nat), countNEGo p pt s k = countNEGo p pt (s.drop k) 0 := by
  intro s
  induction s with
  | nil => intro k; simp [countNEGo_nil]
  | cons c rest ih =>
    intro k
    cases k with
    | zero => simp
    | succ k => rw [countNEGo_succ, List.drop_succ_cons, ih]

theorem isPrefixOf_append_left (pat a b : Text) (h : pat.isPrefixOf a = true) :
    pat.isPrefixOf (a ++ b) = true := by
  induction pat generalizing a with
  | nil => simp [List.isPrefixOf]
  | cons x xs ih =>
    cases a with
    | nil => simp [List.isPrefixOf] at h
    | cons c cs =>
      simp only [List.cons_append, List.isPrefixOf, Bool.and_eq_true, beq_iff_eq] at h ⊢
      exact ⟨h.1, ih cs h.2⟩

theorem isPrefixOf_of_append (pat a b : Text) (hl : pat.length ≤ a.length)
    (h : pat.isPrefixOf (a ++ b) = true) : pat.isPrefixOf a = true := by
  induction pat generalizing a with
  | nil => simp [List.isPrefixOf]
  | cons x xs ih =>
    cases a with
    | nil => simp at hl
    | cons c cs =>
      simp only [List.cons_append, List.isPrefixOf, Bool.and_eq_true, beq_iff_eq] at h ⊢
      exact ⟨h.1, ih cs (by simpa using hl) h.2⟩

/-- Key splitting lemma: if no occurrence of the non-empty pattern `p :: pt`
crosses the border between `a` and `b`, the non-overlapping match count of
`a ++ b` is the sum of the two separate counts.  (Fuel-style strong induction
on the length of `a`.) -/
theorem countNEGo_append (p : Char) (pt : Text) :
    ∀ (n : Nat) (a b : Text), a.length ≤ n →
      (∀ i, i < a.length → a.length < i + (pt.length + 1) →
        (p :: pt).isPrefixOf ((a ++ b).drop i) = false) →
      countNEGo p pt (a ++ b) 0 = countNEGo p pt a 0 + countNEGo p pt b 0 := by
  intro n
  induction n with
  | zero =>
    intro a b ha _
    have hnil : a = [] := List.eq_nil_of_length_eq_zero (Nat.le_zero.mp ha)
    subst hnil
    simp [countNEGo_nil]
  | succ n ih =>
    intro a b ha h
    cases a with
    | nil => simp [countNEGo_nil]
    | cons c a' =>
      rw [List.cons_append]
      by_cases hm : (p :: pt).isPrefixOf (c :: (a' ++ b)) = true
      · -- a match starts right at the head of `a`
        have hlen : pt.length ≤ a'.length := by
          by_contra hcon
          have h0 := h 0 (by simp) (by simp only [List.length_cons]; omega)
          rw [List.drop_zero, List.cons_append] at h0
          rw [h0] at hm
          exact Bool.false_ne_true hm
        have hma : (p :: pt).isPrefixOf (c :: a') = true := by
          apply isPrefixOf_of_append (p :: pt) (c :: a') b
            (by simp only [List.length_cons]; omega)
          rw [List.cons_append]; exact hm
        rw [countNEGo_zero, if_pos hm, countNEGo_zero, if_pos hma]
        rw [countNEGo_skip p pt (a' ++ b), countNEGo_skip p pt a']
        have hsplit : (a' ++ b).drop pt.length = a'.drop pt.length ++ b := by
          rw [List.drop_append_eq_append_drop, Nat.sub_eq_zero_of_le hlen, List.drop_zero]
        rw [hsplit]
        have hrec := ih (a'.drop pt.length) b
          (by simp only [List.length_drop, List.length_cons] at ha ⊢; omega)
          (by
            intro i hi hlt
            simp only [List.length_drop] at hi hlt
            have hd : (a'.drop pt.length ++ b).drop i = ((c :: a') ++ b).drop (i + pt.length + 1) := by
              rw [← hsplit, List.drop_drop, List.cons_append, List.drop_succ_cons]
              rw [Nat.add_comm pt.length i]
            rw [hd]
            exact h (i + pt.length + 1) (by simp only [List.length_cons]; omega)
              (by simp only [List.length_cons]; omega))
        rw [hrec]
        omega
      · -- no match at the head of `a`
        have hma : ¬ (p :: pt).isPrefixOf (c :: a') = true := by
          intro hcon
          apply hm
          rw [← List.cons_append]
          exact isPrefixOf_append_left _ _ _ hcon
        rw [countNEGo_zero, if_neg hm, countNEGo_zero, if_neg hma]
        have hrec := ih a' b (by simp only [List.length_cons] at ha; omega)
          (by
            intro i hi hlt
            have hd : (a' ++ b).drop i = ((c :: a') ++ b).drop (i + 1) := by
              rw [List.cons_append, List.drop_succ_cons]
            rw [hd]
            exact h (i + 1) (by simp only [List.length_cons]; omega)
              (by simp only [List.length_cons]; omega))
        rw [hrec]

/-- Does some occurrence of `pat` in `s` start before position `n` and end
after it (i.e. span the boundary at `n`)? -/
def crossesAt (pat s : Text) (n : Nat) : Bool :=
  (List.range n).any (fun i => decide (n < i + pat.length) && pat.isPrefixOf (s.drop i))

/-- The positions inside the concatenation of `ts` where two consecutive
texts meet. -/
def internalBoundaries : List Text → List Nat
  | [] => []
  | [_] => []
  | p :: q :: ps =>
    p.length :: (internalBoundaries (q :: ps)).map (fun m => m + p.length)

/-- Unfolding characterisation of `crossesAt ... = false`. -/
theorem crossesAt_eq_false (pat s : Text) (m : Nat) :
    crossesAt pat s m = false ↔
      ∀ i, i < m → m < i + pat.length → pat.isPrefixOf (s.drop i) = false := by
  constructor
  · intro h i hi hlt
    cases hx : pat.isPrefixOf (s.drop i) with
    | false => rfl
    | true =>
      exfalso
      have htrue : crossesAt pat s m = true := by
        unfold crossesAt
        rw [List.any_eq_true]
        exact ⟨i, List.mem_range.mpr hi, by simp [hx, hlt]⟩
      rw [h] at htrue
      exact Bool.false_ne_true htrue
  · intro h
    cases hx : crossesAt pat s m with
    | false => rfl
    | true =>
      exfalso
      unfold crossesAt at hx
      rw [List.any_eq_true] at hx
      obtain ⟨i, hmem, hand⟩ := hx
      rw [Bool.and_eq_true, decide_eq_true_eq] at hand
      have hfalse := h i (List.mem_range.mp hmem) hand.1
      rw [hfalse] at hand
      exact Bool.false_ne_true hand.2

/-- Counting non-overlapping matches of a non-empty pattern over a
concatenation equals the per-piece sum, when no occurrence spans an internal
boundary. -/
theorem countM_join (pat : Text) (hp : pat ≠ []) :
    ∀ (ts : List Text),
      (∀ nb ∈ internalBoundaries ts, crossesAt pat ts.flatten nb = false) →
      countM pat ts.flatten = (ts.map (countM pat)).sum := by
  obtain ⟨p, pt, rfl⟩ : ∃ p pt, pat = p :: pt := by
    cases pat with
    | nil => exact absurd rfl hp
    | cons p pt => exact ⟨p, pt, rfl⟩
  intro ts
  induction ts with
  | nil => intro _; simp [countM, countNEGo_nil]
  | cons a ts ih =>
    intro h
    cases ts with
    | nil => simp [countM]
    | cons b ts' =>
      have hb := (crossesAt_eq_false (p :: pt) ((a :: b :: ts').flatten) a.length).mp
        (h a.length (by simp [internalBoundaries]))
      rw [List.flatten_cons]
      have hnc : ∀ i, i < a.length → a.length < i + (pt.length + 1) →
          (p :: pt).isPrefixOf ((a ++ (b :: ts').flatten).drop i) = false := by
        intro i hi hlt
        have hres := hb i hi (by simp only [List.length_cons]; omega)
        rw [List.flatten_cons] at hres
        exact hres
      rw [show countM (p :: pt) (a ++ (b :: ts').flatten) =
        countNEGo p pt (a ++ (b :: ts').flatten) 0 from rfl]
      rw [countNEGo_append p pt a.length a ((b :: ts').flatten) (Nat.le_refl _) hnc]
      have hrest : ∀ nb ∈ internalBoundaries (b :: ts'),
          crossesAt (p :: pt) ((b :: ts').flatten) nb = false := by
        intro nb hnb
        rw [crossesAt_eq_false]
        intro i hi hlt
        have hsh := (crossesAt_eq_false (p :: pt) ((a :: b :: ts').flatten) (nb + a.length)).mp
          (h (nb + a.length) (by
            simp only [internalBoundaries, List.mem_cons]
            right
            exact List.mem_map.mpr ⟨nb, hnb, rfl⟩))
        have hres := hsh (i + a.length) (by omega)
          (by simp only [List.length_cons] at hlt ⊢; omega)
        rw [List.flatten_cons] at hres
        have hdrop : (a ++ (b :: ts').flatten).drop (i + a.length) =
            ((b :: ts').flatten).drop i := by
          rw [Nat.add_comm i a.length, List.drop_append_eq_append_drop]
          simp
        rw [hdrop] at hres
        exact hres
      rw [List.map_cons, List.sum_cons, ← ih hrest]
      rfl

/-!
## Python string splitting (`str.split(sep)` for a non-empty separator)

`pySplitGo q qs s k` splits `s` on the separator `q :: qs`, where `k`
characters at the front of `s` still belong to an already recognised
separator occurrence.  Structural recursion on `s` keeps it reducible.
-/

def pySplitGo (q : Char) (qs : Text) : Text → Nat → List Text
  | [], _ => [[]]
  | _ :: rest, k + 1 => pySplitGo q qs rest k
  | c :: rest, 0 =>
    if (q :: qs).isPrefixOf (c :: rest) then
      [] :: pySplitGo q qs rest qs.length
    else
      match pySplitGo q qs rest 0 with
      | [] => [[c]]
      | g :: gs => (c :: g) :: gs

/-- Python `s.split(sep)` for the non-empty separator `q :: qs`. -/
def pySplit (q : Char) (qs : Text) (s : Text) : List Text := pySplitGo q qs s 0

/-- Python list indexing `parts[idx]`, negative indices counting from the
end; raises `IndexError` when out of range. -/
def pyIndex (parts : List Text) (idx : Int) : Except String Text :=
  let j : Int := if idx < 0 then idx + parts.length else idx
  if h : 0 ≤ j ∧ j < (parts.length : Int) then
    .ok (parts.get ⟨j.toNat, by omega⟩)
  else
    .error "IndexError: list index out of range"

/-- A Python `dict` as an insertion-ordered association list: updating an
existing key keeps its position, a new key is appended. -/
def dictSet {β : Type} : List (Text × β) → Text → β → List (Text × β)
  | [], k, v => [(k, v)]
  | e :: es, k, v => if e.1 = k then (k, v) :: es else e :: dictSet es k v

def dictGet? {β : Type} (r : List (Text × β)) (k : Text) : Option β :=
  (r.find? (fun e => decide (e.1 = k))).map Prod.snd

/-- The inner loop of `apply_separators`: for each `(col, idx)` over the split
`parts`, populate `out[col]` when `-len(parts) <= idx < len(parts)` holds,
mirroring the guard in the source; the index access itself is the fallible
Python indexing. -/
def applyCols (parts : List Text) :
    List (Text × Int) → List (Text × Text) → Except String (List (Text × Text))
  | [], out => .ok out
  | (col, idx) :: cs, out =>
    if -(parts.length : Int) ≤ idx ∧ idx < (parts.length : Int) then
      match pyIndex parts idx with
      | .ok v => applyCols parts cs (dictSet out col (pyStrip v))
      | .error e => .error e
    else
      applyCols parts cs out

def apply_separators_aux (fname : Text) :
    List (Text × List (Text × Int)) → List (Text × Text) →
      Except String (List (Text × Text))
  | [], out => .ok out
  | (sep, cols) :: rest, out =>
    match sep with
    | [] => .error "ValueError: empty separator"
    | q :: qs =>
      match applyCols (pySplit q qs fname) cols out with
      | .ok out2 => apply_separators_aux fname rest out2
      | .error e => .error e

/-- `apply_separators(fname, mapping)` of `utils.py`: split `fname` on each
separator and populate extra columns from the indexed, stripped parts. -/
def apply_separators (fname : Text) (mapping : List (Text × List (Text × Int))) :
    Except String (List (Text × Text)) :=
  apply_separators_aux fname mapping []

/-!
## Filename helpers (`find_year`, `Path.name`, `Path.stem`)
-/

/-- `os.path.basename` / `Path(p).name` on POSIX paths: the part after the
last slash. -/
def pathName (p : Text) : Text := (p.reverse.takeWhile (fun c => c != '/')).reverse

/-- The index of the last `.` in a name, if any. -/
def lastDotIndex (name : Text) : Option Nat :=
  ((name.enum.filter (fun e => e.2 == '.')).getLast?).map Prod.fst

/-- `Path(name).stem`: the name with its final suffix removed; a suffix exists
only when the last dot sits strictly inside the name. -/
def pathStem (name : Text) : Text :=
  match lastDotIndex name with
  | some i => if 0 < i ∧ i < name.length - 1 then name.take i else name
  | none => name

/-- Are the first four characters all digits? (`\d{4}` matching at the
current position; the model uses ASCII digits.) -/
def fourDigits : Text → Bool
  | a :: b :: c :: d :: _ => a.isDigit && b.isDigit && c.isDigit && d.isDigit
  | _ => false

/-- The scan of `re.findall(r"\d{4}", s)`: at each position either take a
four-digit match and resume after it, or advance one character; `k` counts
characters still inside a previous match. -/
def findAll4Go : Text → Nat → List Text
  | [], _ => []
  | _ :: rest, k + 1 => findAll4Go rest k
  | c :: rest, 0 =>
    if fourDigits (c :: rest) then ((c :: rest).take 4) :: findAll4Go rest 3
    else findAll4Go rest 0

/-- `find_year(fname, default)` of `utils.py`: the first `\d{4}` match in the
basename of `fname`, or `default`. -/
def find_year (fname : Text) (default : Option Text) : Option Text :=
  match findAll4Go (pathName fname) 0 with
  | [] => default
  | m :: _ => some m

/-- Modelled from the spec's words, for comparison with `find_year`: the
first window of four consecutive digits found anywhere in a text. -/
def firstFourDigitRun : Text → Option Text
  | [] => none
  | c :: rest =>
    if fourDigits (c :: rest) then some ((c :: rest).take 4)
    else firstFourDigitRun rest

/-!
## `int()` and `parse_page_range`
-/

def digitsToNat (ds : Text) : Nat :=
  ds.foldl (fun acc c => acc * 10 + (c.toNat - '0'.toNat)) 0

/-- Python `int(s)`: optional surrounding whitespace, optional sign, then a
non-empty digit run; anything else raises `ValueError` — in particular
`int("")` does. -/
def pyInt (s : Text) : Except String Int :=
  match pyStrip s with
  | '+' :: ds =>
    if ds ≠ [] ∧ ds.all Char.isDigit then .ok (digitsToNat ds)
    else .error "ValueError: invalid literal for int()"
  | '-' :: ds =>
    if ds ≠ [] ∧ ds.all Char.isDigit then .ok (-(digitsToNat ds : Int))
    else .error "ValueError: invalid literal for int()"
  | ds =>
    if ds ≠ [] ∧ ds.all Char.isDigit then .ok (digitsToNat ds)
    else .error "ValueError: invalid literal for int()"

/-- Python `range(start, stop)` as a list of integers. -/
def intRange (start stop : Int) : List Int :=
  (List.range (stop - start).toNat).map (fun k => start + k)

/-- The token loop of `parse_page_range`: `start, end = map(int, part.split("-"))`
evaluates the two `int` conversions first (lazily, left to right), so a token
that does not split into exactly two integer pieces raises. -/
def parsePagesGo : List Text → List Int → Except String (Option (List Int))
  | [], acc => .ok (some acc)
  | part :: rest, acc =>
    let p := pyStrip part
    if p = [] then parsePagesGo rest acc
    else if '-' ∈ p then
      match pySplit '-' [] p with
      | [s1, s2] =>
        match pyInt s1 with
        | .error e => .error e
        | .ok a =>
          match pyInt s2 with
          | .error e => .error e
          | .ok b => parsePagesGo rest (acc ++ intRange a (b + 1))
      | _ => .error "ValueError: cannot unpack into start, end"
    else
      match pyInt p with
      | .error e => .error e
      | .ok a => parsePagesGo rest (acc ++ [a])

/-- `parse_page_range(spec)` of `utils.py`. -/
def parse_page_range (spec : Option Text) : Except String (Option (List Int)) :=
  match spec with
  | none => .ok none
  | some s =>
    if pyStrip s = [] then .ok none
    else parsePagesGo (pySplit ',' [] s) []

/-!
## Result rows

A `ResultRow` is an insertion-ordered mapping from column name to scalar,
exactly a Python `dict` (`OrderedDict` in the source).
-/

inductive Scalar
  | str (s : Text)
  | int (n : Int)
  | null
deriving DecidableEq

abbrev Row := List (Text × Scalar)

/-- `row[k] = v`. -/
def rowSet (r : Row) (k : Text) (v : Scalar) : Row := dictSet r k v

/-- Adding a match count to a scalar.  In the source the counted keys always
hold integers (the word loop zero-initialises them last), so the non-integer
branches are unreachable; Python would raise `TypeError` there. -/
def scalarAdd : Scalar → Nat → Scalar
  | .int m, n => .int (m + n)
  | s, _ => s

/-- `row[k] += n`.  The key always exists in the source (the skeleton
creates every counted key), so the missing-key branch is unreachable;
Python would raise `KeyError` there. -/
def rowAdd : Row → Text → Nat → Row
  | [], _, _ => []
  | e :: es, k, n => if e.1 = k then (k, scalarAdd e.2 n) :: es else e :: rowAdd es k n

def rowGet? (r : Row) (k : Text) : Option Scalar := dictGet? r k

def rowKeys (r : Row) : List Text := r.map Prod.fst

/-!
## Dictionary lemmas
-/

theorem dictGet?_nil {β : Type} (k : Text) : dictGet? ([] : List (Text × β)) k = none := rfl

theorem dictGet?_cons {β : Type} (e : Text × β) (es : List (Text × β)) (k : Text) :
    dictGet? (e :: es) k = if e.1 = k then some e.2 else dictGet? es k := by
  by_cases he : e.1 = k
  · simp [dictGet?, List.find?_cons, he]
  · simp [dictGet?, List.find?_cons, he]

theorem dictGet?_dictSet_self {β : Type} (r : List (Text × β)) (k : Text) (v : β) :
    dictGet? (dictSet r k v) k = some v := by
  induction r with
  | nil => simp [dictSet, dictGet?_cons, dictGet?_nil]
  | cons e es ih =>
    by_cases he : e.1 = k
    · simp [dictSet, he, dictGet?_cons]
    · simp only [dictSet, if_neg he]
      rw [dictGet?_cons, if_neg he]
      exact ih

theorem dictGet?_dictSet_ne {β : Type} (r : List (Text × β)) (k k' : Text) (v : β)
    (hne : k' ≠ k) : dictGet? (dictSet r k v) k' = dictGet? r k' := by
  have hkk : ¬ k = k' := fun h => hne h.symm
  induction r with
  | nil =>
    rw [dictSet]
    rw [dictGet?_cons]
    rw [if_neg hkk]
  | cons e es ih =>
    by_cases he : e.1 = k
    · rw [dictSet, if_pos he, dictGet?_cons, dictGet?_cons, if_neg hkk,
        if_neg (by rw [he]; exact hkk)]
    · rw [dictSet, if_neg he, dictGet?_cons, dictGet?_cons]
      by_cases he' : e.1 = k'
      · rw [if_pos he', if_pos he']
      · rw [if_neg he', if_neg he']
        exact ih

theorem keys_dictSet {β : Type} (r : List (Text × β)) (k : Text) (v : β) :
    (dictSet r k v).map Prod.fst =
      if k ∈ r.map Prod.fst then r.map Prod.fst else r.map Prod.fst ++ [k] := by
  induction r with
  | nil => simp [dictSet]
  | cons e es ih =>
    by_cases he : e.1 = k
    · rw [dictSet, if_pos he]
      rw [if_pos (show k ∈ (e :: es).map Prod.fst by
        simp only [List.map_cons, List.mem_cons]
        exact Or.inl he.symm)]
      simp only [List.map_cons, he]
    · rw [dictSet, if_neg he]
      simp only [List.map_cons]
      rw [ih]
      by_cases hmem : k ∈ es.map Prod.fst
      · rw [if_pos hmem, if_pos (by simp [hmem])]
      · rw [if_neg hmem, if_neg (show ¬ k ∈ e.1 :: es.map Prod.fst by
          simp only [List.mem_cons]
          rintro (h | h)
          · exact he h.symm
          · exact hmem h)]
        simp

theorem keys_dictSet_of_mem {β : Type} (r : List (Text × β)) (k : Text) (v : β)
    (hmem : k ∈ r.map Prod.fst) : (dictSet r k v).map Prod.fst = r.map Prod.fst := by
  rw [keys_dictSet, if_pos hmem]

theorem nodup_keys_dictSet {β : Type} (r : List (Text × β)) (k : Text) (v : β)
    (hnd : (r.map Prod.fst).Nodup) : ((dictSet r k v).map Prod.fst).Nodup := by
  rw [keys_dictSet]
  by_cases hmem : k ∈ r.map Prod.fst
  · rw [if_pos hmem]; exact hnd
  · rw [if_neg hmem, List.nodup_append]
    refine ⟨hnd, List.nodup_singleton k, ?_⟩
    intro a ha hb
    rw [List.mem_singleton] at hb
    subst hb
    exact hmem ha

/-!
## Row lemmas
-/

theorem rowGet?_rowAdd_self (r : Row) (k : Text) (n : Nat) :
    rowGet? (rowAdd r k n) k = (rowGet? r k).map (fun s => scalarAdd s n) := by
  induction r with
  | nil => simp [rowAdd, rowGet?, dictGet?_nil]
  | cons e es ih =>
    by_cases he : e.1 = k
    · rw [rowAdd, if_pos he, rowGet?, dictGet?_cons, rowGet?, dictGet?_cons]
      simp [he]
    · rw [rowAdd, if_neg he, rowGet?, dictGet?_cons, if_neg he, rowGet?, dictGet?_cons, if_neg he]
      exact ih

theorem rowGet?_rowAdd_ne (r : Row) (k k' : Text) (n : Nat) (hne : k' ≠ k) :
    rowGet? (rowAdd r k n) k' = rowGet? r k' := by
  induction r with
  | nil => simp [rowAdd]
  | cons e es ih =>
    by_cases he : e.1 = k
    · rw [rowAdd, if_pos he, rowGet?, dictGet?_cons, if_neg (fun h => hne h.symm),
        rowGet?, dictGet?_cons, if_neg (by rw [he]; exact fun h => hne h.symm)]
    · rw [rowAdd, if_neg he, rowGet?, dictGet?_cons, rowGet?, dictGet?_cons]
      by_cases he' : e.1 = k'
      · rw [if_pos he', if_pos he']
      · rw [if_neg he', if_neg he']
        exact ih

theorem rowKeys_rowAdd (r : Row) (k : Text) (n : Nat) :
    rowKeys (rowAdd r k n) = rowKeys r := by
  induction r with
  | nil => rfl
  | cons e es ih =>
    by_cases he : e.1 = k
    · simp [rowAdd, he, rowKeys]
    · simp only [rowAdd, if_neg he, rowKeys, List.map_cons]
      rw [show (rowAdd es k n).map Prod.fst = rowKeys (rowAdd es k n) from rfl, ih]
      rfl

theorem scalarAdd_zero (s : Scalar) : scalarAdd s 0 = s := by
  cases s <;> simp [scalarAdd]

theorem scalarAdd_add (s : Scalar) (a b : Nat) :
    scalarAdd (scalarAdd s a) b = scalarAdd s (a + b) := by
  cases s <;> simp [scalarAdd]
  ring

/-!
## Fold lemmas for row construction
-/

/-- `for w in ws: row[w] = 0` sets every listed key to the integer 0. -/
theorem rowGet?_zeroFold (ws : List Text) :
    ∀ (r : Row) (k : Text),
      rowGet? (ws.foldl (fun r w => rowSet r w (.int 0)) r) k =
        if k ∈ ws then some (.int 0) else rowGet? r k := by
  induction ws with
  | nil => intro r k; simp
  | cons w ws ih =>
    intro r k
    rw [List.foldl_cons, ih]
    by_cases hk : k ∈ ws
    · rw [if_pos hk, if_pos (List.mem_cons.mpr (Or.inr hk))]
    · rw [if_neg hk]
      by_cases hkw : k = w
      · subst hkw
        rw [if_pos (List.mem_cons.mpr (Or.inl rfl))]
        exact dictGet?_dictSet_self r k _
      · rw [if_neg (by
          rw [List.mem_cons]
          rintro (h | h)
          · exact hkw h
          · exact hk h)]
        exact dictGet?_dictSet_ne r w k _ hkw

theorem rowGet?_setFold_notMem (vf : Text → Scalar) (ws : List Text) :
    ∀ (r : Row) (k : Text), k ∉ ws →
      rowGet? (ws.foldl (fun r w => rowSet r w (vf w)) r) k = rowGet? r k := by
  induction ws with
  | nil => intro r k _; rfl
  | cons w ws ih =>
    intro r k hk
    rw [List.foldl_cons, ih _ _ (fun h => hk (List.mem_cons.mpr (Or.inr h)))]
    exact dictGet?_dictSet_ne r w k _ (fun h => hk (List.mem_cons.mpr (Or.inl h)))

theorem rowGet?_setFold_mem (vf : Text → Scalar) (ws : List Text) :
    ∀ (r : Row) (k : Text), ws.Nodup → k ∈ ws →
      rowGet? (ws.foldl (fun r w => rowSet r w (vf w)) r) k = some (vf k) := by
  induction ws with
  | nil => intro r k _ hk; simp at hk
  | cons w ws ih =>
    intro r k hnd hk
    rw [List.foldl_cons]
    rcases List.mem_cons.mp hk with hkw | hk'
    · subst hkw
      rw [rowGet?_setFold_notMem vf ws _ k (List.nodup_cons.mp hnd).1]
      exact dictGet?_dictSet_self r k _
    · exact ih _ _ (List.nodup_cons.mp hnd).2 hk'

theorem rowGet?_addFold_notMem (c : Text → Nat) (ws : List Text) :
    ∀ (r : Row) (k : Text), k ∉ ws →
      rowGet? (ws.foldl (fun r w => rowAdd r w (c w)) r) k = rowGet? r k := by
  induction ws with
  | nil => intro r k _; rfl
  | cons w ws ih =>
    intro r k hk
    rw [List.foldl_cons, ih _ _ (fun h => hk (List.mem_cons.mpr (Or.inr h)))]
    exact rowGet?_rowAdd_ne r w k _ (fun h => hk (List.mem_cons.mpr (Or.inl h)))

theorem rowGet?_addFold_mem (c : Text → Nat) (ws : List Text) :
    ∀ (r : Row) (k : Text), ws.Nodup → k ∈ ws →
      rowGet? (ws.foldl (fun r w => rowAdd r w (c w)) r) k =
        (rowGet? r k).map (fun s => scalarAdd s (c k)) := by
  induction ws with
  | nil => intro r k _ hk; simp at hk
  | cons w ws ih =>
    intro r k hnd hk
    rw [List.foldl_cons]
    rcases List.mem_cons.mp hk with hkw | hk'
    · subst hkw
      rw [rowGet?_addFold_notMem c ws _ k (List.nodup_cons.mp hnd).1]
      exact rowGet?_rowAdd_self r k (c k)
    · rw [ih _ _ (List.nodup_cons.mp hnd).2 hk',
        rowGet?_rowAdd_ne r w k _ (by
          intro hkw
          exact (List.nodup_cons.mp hnd).1 (hkw ▸ hk'))]

/-- The nested page/word counting loop of the PyPDF2 branch accumulates, for
each word of the (de-duplicated) word list, the per-page counts. -/
theorem rowGet?_pageFold (cnt : Text → Text → Nat) (uniq : List Text)
    (hnd : uniq.Nodup) (k : Text) (hk : k ∈ uniq) :
    ∀ (ts : List Text) (r : Row),
      rowGet? (ts.foldl
        (fun r t => uniq.foldl (fun r w => rowAdd r w (cnt w t)) r) r) k =
        (rowGet? r k).map (fun s => scalarAdd s ((ts.map (cnt k)).sum)) := by
  intro ts
  induction ts with
  | nil =>
    intro r
    cases h : rowGet? r k <;> simp [h, scalarAdd_zero]
  | cons t ts ih =>
    intro r
    rw [List.foldl_cons, ih (uniq.foldl (fun r w => rowAdd r w (cnt w t)) r),
      rowGet?_addFold_mem (fun w => cnt w t) uniq r k hnd hk]
    cases h : rowGet? r k <;> simp [h, scalarAdd_add]

/-!
## De-duplication of the word list

`compile_words` builds the Python dict `{w: re.compile(w)}`, so duplicate
terms collapse onto their first occurrence, and the counting loops iterate
over that dict.
-/

def dedupFirst : List Text → List Text
  | [] => []
  | w :: ws => w :: (dedupFirst ws).filter (fun x => decide (x ≠ w))

theorem mem_dedupFirst (ws : List Text) (x : Text) : x ∈ dedupFirst ws ↔ x ∈ ws := by
  induction ws with
  | nil => simp [dedupFirst]
  | cons w ws ih =>
    simp only [dedupFirst, List.mem_cons, List.mem_filter, decide_eq_true_eq, ih]
    constructor
    · rintro (h | ⟨h, _⟩)
      · exact Or.inl h
      · exact Or.inr h
    · rintro (h | h)
      · exact Or.inl h
      · by_cases hxw : x = w
        · exact Or.inl hxw
        · exact Or.inr ⟨h, hxw⟩

theorem nodup_dedupFirst (ws : List Text) : (dedupFirst ws).Nodup := by
  induction ws with
  | nil => simp [dedupFirst]
  | cons w ws ih =>
    rw [dedupFirst, List.nodup_cons]
    refine ⟨?_, ih.filter _⟩
    intro hmem
    rw [List.mem_filter, decide_eq_true_eq] at hmem
    exact hmem.2 rfl

/-!
## The Document Searcher (`search_pdf`)
-/

/-- The keyword options of `search_pdf` that shape the result row.  The
logging-only option `progress_interval` is omitted; `unicode_form` names the
normalization form the external `unicodedata` collaborator applies and is
carried for completeness. -/
structure SearchConfig where
  words : List Text
  ignoreCase : Bool := true
  pagesSel : Option (List Int) := none
  includePages : Bool := true
  includeYear : Bool := false
  defaultYear : Option Text := none
  includeFilename : Bool := true
  keepExtension : Bool := false
  separators : Option (List (Text × List (Text × Int))) := none
  usePdfminer : Bool := false
  normaliseUnicode : Bool := false
  unicodeForm : Text := lit "NFKC"
deriving DecidableEq

/-- `re.IGNORECASE` modelled for literal patterns: both the pattern and the
text are case-folded before matching. -/
def effCase (ic : Bool) (s : Text) : Text := if ic then s.map Char.toLower else s

/-- Optional Unicode normalization by the external collaborator `nf`,
standing for `unicodedata.normalize(unicode_form, ·)`. -/
def procText (cfg : SearchConfig) (nf : Text → Text) (txt : Text) : Text :=
  if cfg.normaliseUnicode then nf txt else txt

/-- `len(pat.findall(txt))` for the compiled pattern of word `w`, in the
literal fragment: faithful exactly for terms free of regex metacharacters
(see `reCompile`). -/
def countTerm (ic : Bool) (w txt : Text) : Nat :=
  countM (effCase ic w) (effCase ic txt)

def scalarOfYear : Option Text → Scalar
  | some y => .str y
  | none => .null

/-- The separator-derived columns: the empty dict when no mapping is
configured (the code skips the call), else `apply_separators`. -/
def sepCols (cfg : SearchConfig) (arg : Text) : Except String (List (Text × Text)) :=
  match cfg.separators with
  | none => .ok []
  | some m => apply_separators arg m

/-- The display filename: `pdf.name` when `keep_extension` else `pdf.stem`. -/
def fnameOf (cfg : SearchConfig) (pdf : Text) : Text :=
  if cfg.keepExtension then pathName pdf else pathStem (pathName pdf)

/-- The argument `apply_separators` receives
(`fname_full if keep_extension else fname` in the source). -/
def sepArg (cfg : SearchConfig) (pdf : Text) : Text :=
  if cfg.keepExtension then pathName pdf else fnameOf cfg pdf

/-- The filename/year head of the row skeleton. -/
def rowBase (cfg : SearchConfig) (pdf : Text) : Row :=
  let r1 : Row := if cfg.includeFilename then rowSet [] (lit "file") (.str (fnameOf cfg pdf))
    else []
  if cfg.includeYear then
    rowSet r1 (lit "year") (scalarOfYear (find_year (pathName pdf) cfg.defaultYear))
  else r1

/-- The full skeleton once the separator columns `cols` are known: separator
columns, page-count placeholder, then one zero-initialised counter per word,
in source order. -/
def rowSkeleton (cfg : SearchConfig) (pdf : Text) (cols : List (Text × Text)) : Row :=
  let r3 : Row := cols.foldl (fun r cv => rowSet r cv.1 (.str cv.2)) (rowBase cfg pdf)
  let r4 : Row := if cfg.includePages then rowSet r3 (lit "pages") (.int 0) else r3
  cfg.words.foldl (fun r w => rowSet r w (.int 0)) r4

/-- The row skeleton of `search_pdf` (everything before the backend branch);
it fails only when `apply_separators` raises. -/
def buildRow (cfg : SearchConfig) (pdf : Text) : Except String Row :=
  match sepCols cfg (sepArg cfg pdf) with
  | .error e => .error e
  | .ok cols => .ok (rowSkeleton cfg pdf cols)

/-- The PyPDF2 (primary) branch of `search_pdf`, applied to the per-page
texts returned by the extraction backend: set the page count, then add the
per-page match counts into each word's counter. -/
def search_pdf_primary (cfg : SearchConfig) (pdf : Text) (pageTexts : List Text)
    (nf : Text → Text) : Except String Row :=
  match buildRow cfg pdf with
  | .error e => .error e
  | .ok row0 =>
    let row1 := if cfg.includePages then
        rowSet row0 (lit "pages")
          (.int (match cfg.pagesSel with
                 | none => (pageTexts.length : Int)
                 | some sel => (sel.length : Int)))
      else row0
    let uniq := dedupFirst cfg.words
    .ok (pageTexts.foldl
      (fun r txt => uniq.foldl
        (fun r w => rowAdd r w (countTerm cfg.ignoreCase w (procText cfg nf txt))) r)
      row1)

/-- The pdfminer (alternate) branch of `search_pdf`: page count from the
backend's page counter, match counts over the concatenation of the extracted
page chunks. -/
def search_pdf_alternate (cfg : SearchConfig) (pdf : Text) (pageCount : Nat)
    (pageTexts : List Text) (nf : Text → Text) : Except String Row :=
  match buildRow cfg pdf with
  | .error e => .error e
  | .ok row0 =>
    let row1 := if cfg.includePages then rowSet row0 (lit "pages") (.int (pageCount : Int))
      else row0
    let text := procText cfg nf pageTexts.flatten
    let uniq := dedupFirst cfg.words
    .ok (uniq.foldl (fun r w => rowSet r w (.int (countTerm cfg.ignoreCase w text))) row1)

/-!
## Searcher-level lemmas
-/

theorem rowGet?_rowSet_self (r : Row) (k : Text) (v : Scalar) :
    rowGet? (rowSet r k v) k = some v := dictGet?_dictSet_self r k v

theorem rowGet?_rowSet_ne (r : Row) (k k' : Text) (v : Scalar) (hne : k' ≠ k) :
    rowGet? (rowSet r k v) k' = rowGet? r k' := dictGet?_dictSet_ne r k k' v hne

/-- Whatever the separator branch did, the successful skeleton ends with the
zero-initialising word loop. -/
theorem buildRow_ok_shape (cfg : SearchConfig) (pdf : Text) (r0 : Row)
    (hok : buildRow cfg pdf = .ok r0) :
    ∃ base : Row, r0 = cfg.words.foldl (fun r w => rowSet r w (.int 0)) base := by
  unfold buildRow at hok
  cases hs : sepCols cfg (sepArg cfg pdf) with
  | error e => rw [hs] at hok; exact absurd hok (by simp)
  | ok cols =>
    rw [hs] at hok
    injection hok with h
    exact ⟨_, h.symm⟩

theorem buildRow_get_word (cfg : SearchConfig) (pdf : Text) (r0 : Row) (w : Text)
    (hok : buildRow cfg pdf = .ok r0) (hw : w ∈ cfg.words) :
    rowGet? r0 w = some (.int 0) := by
  obtain ⟨base, rfl⟩ := buildRow_ok_shape cfg pdf r0 hok
  rw [rowGet?_zeroFold, if_pos hw]

/-- In a successful primary-branch row, the counter of a word (that does not
collide with the `pages` column) is the sum of the per-page match counts. -/
theorem search_pdf_primary_get (cfg : SearchConfig) (pdf : Text) (pageTexts : List Text)
    (nf : Text → Text) (r : Row) (w : Text)
    (hok : search_pdf_primary cfg pdf pageTexts nf = .ok r)
    (hw : w ∈ cfg.words)
    (hpg : cfg.includePages = false ∨ w ≠ lit "pages") :
    rowGet? r w = some (.int ((pageTexts.map
      (fun txt => countTerm cfg.ignoreCase w (procText cfg nf txt))).sum)) := by
  unfold search_pdf_primary at hok
  split at hok
  · exact absurd hok (by simp)
  · rename_i row0 hrow
    simp only [Except.ok.injEq] at hok
    subst hok
    rw [rowGet?_pageFold _ _ (nodup_dedupFirst cfg.words) w
      ((mem_dedupFirst cfg.words w).mpr hw)]
    cases hip : cfg.includePages
    · rw [if_neg Bool.false_ne_true]
      rw [buildRow_get_word cfg pdf row0 w hrow hw]
      simp [scalarAdd]
    · have hne : w ≠ lit "pages" := by
        rcases hpg with h | h
        · rw [hip] at h; exact absurd h (by simp)
        · exact h
      rw [if_pos rfl, rowGet?_rowSet_ne row0 (lit "pages") w _ hne,
        buildRow_get_word cfg pdf row0 w hrow hw]
      simp [scalarAdd]

/-- In a successful alternate-branch row, the counter of a word is the match
count over the concatenated chunk text (the final word loop assigns it
directly). -/
theorem search_pdf_alternate_get (cfg : SearchConfig) (pdf : Text) (pageCount : Nat)
    (pageTexts : List Text) (nf : Text → Text) (r : Row) (w : Text)
    (hok : search_pdf_alternate cfg pdf pageCount pageTexts nf = .ok r)
    (hw : w ∈ cfg.words) :
    rowGet? r w =
      some (.int (countTerm cfg.ignoreCase w (procText cfg nf pageTexts.flatten))) := by
  unfold search_pdf_alternate at hok
  split at hok
  · exact absurd hok (by simp)
  · rename_i row0 hrow
    simp only [Except.ok.injEq] at hok
    subst hok
    rw [rowGet?_setFold_mem _ _ _ _ (nodup_dedupFirst cfg.words)
      ((mem_dedupFirst cfg.words w).mpr hw)]

theorem search_pdf_primary_error (cfg : SearchConfig) (pdf : Text) (pageTexts : List Text)
    (nf : Text → Text) (e : String) (hb : buildRow cfg pdf = .error e) :
    search_pdf_primary cfg pdf pageTexts nf = .error e := by
  unfold search_pdf_primary
  rw [hb]

theorem search_pdf_alternate_error (cfg : SearchConfig) (pdf : Text) (pageCount : Nat)
    (pageTexts : List Text) (nf : Text → Text) (e : String)
    (hb : buildRow cfg pdf = .error e) :
    search_pdf_alternate cfg pdf pageCount pageTexts nf = .error e := by
  unfold search_pdf_alternate
  rw [hb]

theorem procText_eq_id (cfg : SearchConfig) (nf : Text → Text)
    (hnorm : cfg.normaliseUnicode = false ∨ ∀ s, nf s = s) (t : Text) :
    procText cfg nf t = t := by
  unfold procText
  rcases hnorm with h | h
  · rw [h]; simp
  · cases cfg.normaliseUnicode <;> simp [h]

theorem effCase_ne_nil (ic : Bool) (w : Text) (hw : w ≠ []) : effCase ic w ≠ [] := by
  cases ic <;> simp [effCase, hw]

/-!
## The Batch Orchestrator (`search_pdfs`)

The serial branch (`workers <= 1`).  The threaded branch submits the same
per-document searches to a thread pool and is outside this embedding; the
progress/milestone logging (`ppdf`, `tqdm`), the table post-processing
(`sort_cols`, `show`, `outfile`) belong to the external table layer.
-/

/-- A failure of an external extraction backend (unreadable or corrupt
document); the payload is the exception text. -/
structure ExtractionErr where
  msg : Text
deriving DecidableEq

/-- Errors a single `search_pdf` call can raise. -/
inductive SearchError
  | extraction (e : ExtractionErr)
  | valueError (msg : String)
deriving DecidableEq

/-- Errors of the batch entry point `search_pdfs`. -/
inductive BatchError
  | noDocuments (msg : String)
  | search (e : SearchError)
deriving DecidableEq

/-- The `pdfs` argument of `search_pdfs`: a single pattern string or a list
of paths. -/
inductive BatchInput
  | pattern (s : Text)
  | paths (l : List Text)
deriving DecidableEq

/-- Lexicographic comparison of texts by code point, as Python compares
strings. -/
def lexLe : Text → Text → Bool
  | [], _ => true
  | _ :: _, [] => false
  | a :: as, b :: bs =>
    if a.toNat < b.toNat then true
    else if b.toNat < a.toNat then false
    else lexLe as bs

def pathLe (a b : Text) : Prop := lexLe a b = true

instance : DecidableRel pathLe := fun _ _ => inferInstanceAs (Decidable (_ = true))

instance : IsTotal Text pathLe where
  total := by
    intro a b
    unfold pathLe
    induction a generalizing b with
    | nil => left; rfl
    | cons x xs ih =>
      cases b with
      | nil => right; rfl
      | cons y ys =>
        rcases Nat.lt_trichotomy x.toNat y.toNat with h | h | h
        · left; simp [lexLe, h]
        · rcases ih ys with hl | hr
          · left; simp [lexLe, h, Nat.lt_irrefl, hl]
          · right; simp [lexLe, h.symm, Nat.lt_irrefl, hr]
        · right; simp [lexLe, h]

instance : IsTrans Text pathLe where
  trans := by
    intro a b c hab hbc
    unfold pathLe at hab hbc ⊢
    induction a generalizing b c with
    | nil => rfl
    | cons x xs ih =>
      cases b with
      | nil => exact absurd hab (by simp [lexLe])
      | cons y ys =>
        cases c with
        | nil => exact absurd hbc (by simp [lexLe])
        | cons z zs =>
          simp only [lexLe] at hab hbc ⊢
          have hyx : ¬ y.toNat < x.toNat := by
            intro hc
            rw [if_neg (by omega), if_pos hc] at hab
            exact Bool.false_ne_true hab
          have hzy : ¬ z.toNat < y.toNat := by
            intro hc
            rw [if_neg (by omega), if_pos hc] at hbc
            exact Bool.false_ne_true hbc
          rcases Nat.lt_trichotomy x.toNat z.toNat with h | h | h
          · rw [if_pos h]
          · have hxy : ¬ x.toNat < y.toNat := by omega
            have hyz : ¬ y.toNat < z.toNat := by omega
            rw [if_neg hxy, if_neg hyx] at hab
            rw [if_neg hyz, if_neg hzy] at hbc
            rw [if_neg (by omega : ¬ x.toNat < z.toNat), if_neg (by omega : ¬ z.toNat < x.toNat)]
            exact ih ys zs hab hbc
          · omega

/-- `sorted(pdfs)` in Python: a stable sort under the lexicographic string
order; insertion sort realises it. -/
def pySorted (l : List Text) : List Text := List.insertionSort pathLe l

/-- The resolution step of `search_pdfs`: a single string is glob-expanded
only when it contains `*` (otherwise taken literally), a list is taken as
is; the result is sorted.  `globFn` is the external `glob.glob`. -/
def resolvePdfs (input : BatchInput) (globFn : Text → List Text) : List Text :=
  match input with
  | .pattern s => pySorted (if '*' ∈ s then globFn s else [s])
  | .paths l => pySorted l

/-- One document's search inside the batch: the backend branch of
`search_pdf`, with the extraction calls made fallible.  `hasPdfminer` is the
`HAS_PDFMINER` capability flag, `extractP` is `extract_with_pypdf2`,
`countA` is `count_pages_with_pdfminer` (only consulted when the page count
column is enabled), `extractA` the pdfminer text extraction. -/
def searchPdfDoc (cfg : SearchConfig) (hasPdfminer : Bool)
    (extractP : Text → Except ExtractionErr (List Text))
    (countA : Text → Except ExtractionErr Nat)
    (extractA : Text → Except ExtractionErr (List Text))
    (nf : Text → Text) (pdf : Text) : Except SearchError Row :=
  if cfg.usePdfminer && hasPdfminer then
    match buildRow cfg pdf with
    | .error e => .error (.valueError e)
    | .ok _ =>
      match (if cfg.includePages then countA pdf else .ok 0) with
      | .error e => .error (.extraction e)
      | .ok n =>
        match extractA pdf with
        | .error e => .error (.extraction e)
        | .ok chunks =>
          match search_pdf_alternate cfg pdf n chunks nf with
          | .error e => .error (.valueError e)
          | .ok r => .ok r
  else
    match buildRow cfg pdf with
    | .error e => .error (.valueError e)
    | .ok _ =>
      match extractP pdf with
      | .error e => .error (.extraction e)
      | .ok texts =>
        match search_pdf_primary cfg pdf texts nf with
        | .error e => .error (.valueError e)
        | .ok r => .ok r

/-- The serial loop of `search_pdfs`: documents in order, first failure
propagates and the rows collected so far are discarded. -/
def searchPdfsGo (cfg : SearchConfig) (hasPdfminer : Bool)
    (extractP : Text → Except ExtractionErr (List Text))
    (countA : Text → Except ExtractionErr Nat)
    (extractA : Text → Except ExtractionErr (List Text))
    (nf : Text → Text) : List Text → Except BatchError (List Row)
  | [] => .ok []
  | d :: ds =>
    match searchPdfDoc cfg hasPdfminer extractP countA extractA nf d with
    | .error e => .error (.search e)
    | .ok r =>
      match searchPdfsGo cfg hasPdfminer extractP countA extractA nf ds with
      | .error e => .error e
      | .ok rs => .ok (r :: rs)

/-- `search_pdfs` in serial mode: resolve the input to a sorted path list,
fail when nothing matched, then run the per-document searches in order and
stack the rows. -/
def search_pdfs (input : BatchInput) (cfg : SearchConfig) (hasPdfminer : Bool)
    (extractP : Text → Except ExtractionErr (List Text))
    (countA : Text → Except ExtractionErr Nat)
    (extractA : Text → Except ExtractionErr (List Text))
    (nf : Text → Text) (globFn : Text → List Text) : Except BatchError (List Row) :=
  let pdfs := resolvePdfs input globFn
  if pdfs = [] then .error (.noDocuments "No PDF files matched the given pattern(s).")
  else searchPdfsGo cfg hasPdfminer extractP countA extractA nf pdfs

/-!
## Claim theorems
-/

/-- C3: of the spec's three examples for `parse_page_range`, the `None` and
`""` cases hold, but `parse_page_range("1,3-5,-1")` does not return
`[1, 3, 4, 5, -1]`: the token `"-1"` contains `"-"`, is split on it into
`["", "1"]`, and `int("")` raises `ValueError` — contradicting the
function's own docstring. -/
theorem C3_parse_page_range_examples :
    parse_page_range none = .ok none ∧
    parse_page_range (some (lit "")) = .ok none ∧
    (∃ e, parse_page_range (some (lit "1,3-5,-1")) = .error e) ∧
    parse_page_range (some (lit "1,3-5,-1")) ≠ .ok (some [1, 3, 4, 5, -1]) := by
  refine ⟨rfl, rfl, ⟨"ValueError: invalid literal for int()", rfl⟩, ?_⟩
  intro h
  rw [show parse_page_range (some (lit "1,3-5,-1")) =
    .error "ValueError: invalid literal for int()" from rfl] at h
  exact Except.noConfusion h

theorem head?_findAll4Go (s : Text) : (findAll4Go s 0).head? = firstFourDigitRun s := by
  induction s with
  | nil => rfl
  | cons c rest ih =>
    by_cases h4 : fourDigits (c :: rest) = true
    · simp only [findAll4Go, firstFourDigitRun, if_pos h4, List.head?_cons]
    · simp only [findAll4Go, firstFourDigitRun, if_neg h4]
      exact ih

/-- C9: `find_year` returns the first window of four consecutive digits in
the basename of the filename (the head of the `\d{4}` scan), or the default
when no such window exists; and the spec's two examples evaluate as stated. -/
theorem C9_find_year_spec :
    (∀ (fname : Text) (d : Option Text),
      find_year fname d =
        match firstFourDigitRun (pathName fname) with
        | some y => some y
        | none => d) ∧
    find_year (lit "report_2023_final.pdf") none = some (lit "2023") ∧
    find_year (lit "no_digits_here.pdf") (some (lit "unknown")) = some (lit "unknown") := by
  refine ⟨?_, rfl, rfl⟩
  intro fname d
  unfold find_year
  rw [← head?_findAll4Go (pathName fname)]
  cases findAll4Go (pathName fname) 0 <;> rfl

/-- Under the source's range guard, the checked Python indexing succeeds. -/
theorem pyIndex_ok_of_range (parts : List Text) (idx : Int)
    (h : -(parts.length : Int) ≤ idx ∧ idx < (parts.length : Int)) :
    ∃ v, pyIndex parts idx = .ok v := by
  unfold pyIndex
  rw [dif_pos (by constructor <;> split <;> omega)]
  exact ⟨_, rfl⟩

/-- The column loop of `apply_separators` never raises: every list access is
guarded by the range check. -/
theorem applyCols_ok (parts : List Text) (cs : List (Text × Int)) :
    ∀ out, ∃ out2, applyCols parts cs out = .ok out2 := by
  induction cs with
  | nil => intro out; exact ⟨out, rfl⟩
  | cons ci cs ih =>
    intro out
    obtain ⟨col, idx⟩ := ci
    by_cases hrange : -(parts.length : Int) ≤ idx ∧ idx < (parts.length : Int)
    · obtain ⟨v, hv⟩ := pyIndex_ok_of_range parts idx hrange
      simp only [applyCols, if_pos hrange, hv]
      exact ih _
    · simp only [applyCols, if_neg hrange]
      exact ih out

theorem apply_separators_aux_ok (fname : Text) :
    ∀ (mapping : List (Text × List (Text × Int))),
      (∀ sc ∈ mapping, sc.1 ≠ []) →
      ∀ out, ∃ out2, apply_separators_aux fname mapping out = .ok out2 := by
  intro mapping
  induction mapping with
  | nil => intro _ out; exact ⟨out, rfl⟩
  | cons sc rest ih =>
    intro hsep out
    obtain ⟨sep, cols⟩ := sc
    cases sep with
    | nil => exact absurd rfl (hsep ([], cols) (List.mem_cons_self _ _))
    | cons q qs =>
      obtain ⟨out2, h2⟩ := applyCols_ok (pySplit q qs fname) cols out
      simp only [apply_separators_aux, h2]
      exact ih (fun sc hsc => hsep sc (List.mem_cons_of_mem _ hsc)) out2

/-- A single out-of-range column is silently omitted: the result is the
empty mapping, not an empty/null value. -/
theorem apply_separators_omits (fname : Text) (q : Char) (qs col : Text) (idx : Int)
    (hout : ¬(-(((pySplit q qs fname).length : Int)) ≤ idx ∧
      idx < ((pySplit q qs fname).length : Int))) :
    apply_separators fname [(q :: qs, [(col, idx)])] = .ok [] := by
  unfold apply_separators apply_separators_aux
  simp only [applyCols, if_neg hout]
  rfl

/-- C4 counterexample: on the spec's own example the code returns
`{'category': '2023', 'ext': 'pdf'}`, not `{'category': 'report', ...}`:
splitting `"2023_report.final.pdf"` on `"_"` yields two parts and index `-2`
selects the first, `"2023"`. -/
theorem C4_apply_separators_example_counterexample :
    apply_separators (lit "2023_report.final.pdf")
      [(lit "_", [(lit "category", -2)]), (lit ".", [(lit "ext", -1)])] =
      .ok [(lit "category", lit "2023"), (lit "ext", lit "pdf")] ∧
    apply_separators (lit "2023_report.final.pdf")
      [(lit "_", [(lit "category", -2)]), (lit ".", [(lit "ext", -1)])] ≠
      .ok [(lit "category", lit "report"), (lit "ext", lit "pdf")] := by
  constructor
  · rfl
  · intro h
    rw [show apply_separators (lit "2023_report.final.pdf")
      [(lit "_", [(lit "category", -2)]), (lit ".", [(lit "ext", -1)])] =
      .ok [(lit "category", lit "2023"), (lit "ext", lit "pdf")] from rfl] at h
    injection h with h2
    have : (lit "2023") = (lit "report") := by
      have := List.head_eq_of_cons_eq h2
      exact congrArg Prod.snd this
    exact absurd this (by decide)

/-- C4 (amended): `apply_separators` never raises whenever every separator is
non-empty — in particular an out-of-range part index never raises, the
affected column being silently omitted — and on the spec's example it
returns `{'category': '2023', 'ext': 'pdf'}`. -/
theorem C4_apply_separators_total :
    (∀ (fname : Text) (mapping : List (Text × List (Text × Int))),
      (∀ sc ∈ mapping, sc.1 ≠ []) →
      ∃ out, apply_separators fname mapping = .ok out) ∧
    (∀ (fname : Text) (q : Char) (qs col : Text) (idx : Int),
      ¬(-(((pySplit q qs fname).length : Int)) ≤ idx ∧
        idx < ((pySplit q qs fname).length : Int)) →
      apply_separators fname [(q :: qs, [(col, idx)])] = .ok []) ∧
    apply_separators (lit "2023_report.final.pdf")
      [(lit "_", [(lit "category", -2)]), (lit ".", [(lit "ext", -1)])] =
      .ok [(lit "category", lit "2023"), (lit "ext", lit "pdf")] :=
  ⟨fun fname mapping hsep => apply_separators_aux_ok fname mapping hsep [],
   fun fname q qs col idx hout => apply_separators_omits fname q qs col idx hout,
   rfl⟩

/-- Witness for `C4_apply_separators_total` at concrete inputs. -/
theorem C4_apply_separators_total_witness :
    (∃ out, apply_separators (lit "a b.pdf") [(lit " ", [(lit "c", 5)])] = .ok out) ∧
    apply_separators (lit "a.pdf") [([' '], [(lit "c", (3 : Int))])] = .ok [] :=
  ⟨C4_apply_separators_total.1 (lit "a b.pdf") [(lit " ", [(lit "c", 5)])]
      (by intro sc hsc; simp only [List.mem_singleton] at hsc; subst hsc; decide),
   C4_apply_separators_total.2.1 (lit "a.pdf") ' ' [] (lit "c") 3 (by decide)⟩

theorem head?_dropWhile_false (p : Char → Bool) (l : Text) :
    ∀ c, (l.dropWhile p).head? = some c → p c = false := by
  induction l with
  | nil => intro c h; simp at h
  | cons x xs ih =>
    intro c h
    rw [List.dropWhile_cons] at h
    by_cases hp : p x = true
    · rw [if_pos hp] at h
      exact ih c h
    · rw [if_neg hp] at h
      rw [List.head?_cons, Option.some.injEq] at h
      subst h
      exact Bool.eq_false_iff.mpr hp

/-- A stripped value never starts with whitespace. -/
theorem pyStrip_head (s : Text) (c : Char) (h : (pyStrip s).head? = some c) :
    isPySpace c = false := by
  unfold pyStrip at h
  obtain ⟨u, hu⟩ := List.dropWhile_suffix
    (l := (s.dropWhile isPySpace).reverse) (p := isPySpace)
  have hsplit : ((s.dropWhile isPySpace).reverse.dropWhile isPySpace).reverse ++ u.reverse =
      s.dropWhile isPySpace := by
    rw [← List.reverse_append, hu, List.reverse_reverse]
  cases hstr : ((s.dropWhile isPySpace).reverse.dropWhile isPySpace).reverse with
  | nil => rw [hstr] at h; simp at h
  | cons d ds =>
    rw [hstr, List.head?_cons, Option.some.injEq] at h
    subst h
    have hth : (s.dropWhile isPySpace).head? = some d := by
      rw [← hsplit, hstr, List.cons_append, List.head?_cons]
    exact head?_dropWhile_false isPySpace s d hth

/-- A stripped value never ends with whitespace. -/
theorem pyStrip_last (s : Text) (c : Char) (h : (pyStrip s).getLast? = some c) :
    isPySpace c = false := by
  unfold pyStrip at h
  rw [List.getLast?_reverse] at h
  exact head?_dropWhile_false isPySpace _ c h

theorem mem_dictSet {β : Type} (out : List (Text × β)) (k : Text) (v : β) :
    ∀ cv ∈ dictSet out k v, cv = (k, v) ∨ cv ∈ out := by
  induction out with
  | nil => intro cv hcv; rw [dictSet, List.mem_singleton] at hcv; exact Or.inl hcv
  | cons e es ih =>
    intro cv hcv
    by_cases he : e.1 = k
    · rw [dictSet, if_pos he, List.mem_cons] at hcv
      rcases hcv with h | h
      · exact Or.inl h
      · exact Or.inr (List.mem_cons_of_mem _ h)
    · rw [dictSet, if_neg he, List.mem_cons] at hcv
      rcases hcv with h | h
      · exact Or.inr (h ▸ List.mem_cons_self _ _)
      · rcases ih cv h with h2 | h2
        · exact Or.inl h2
        · exact Or.inr (List.mem_cons_of_mem _ h2)

/-- Every value the column loop inserts is a stripped part. -/
theorem applyCols_values (parts : List Text) (cs : List (Text × Int)) :
    ∀ out out2, applyCols parts cs out = .ok out2 →
      (∀ cv ∈ out, ∃ u, cv.2 = pyStrip u) →
      ∀ cv ∈ out2, ∃ u, cv.2 = pyStrip u := by
  induction cs with
  | nil =>
    intro out out2 hok hinv
    injection hok with h
    exact h ▸ hinv
  | cons ci cs ih =>
    intro out out2 hok hinv
    obtain ⟨col, idx⟩ := ci
    by_cases hrange : -(parts.length : Int) ≤ idx ∧ idx < (parts.length : Int)
    · obtain ⟨v, hv⟩ := pyIndex_ok_of_range parts idx hrange
      simp only [applyCols, if_pos hrange, hv] at hok
      refine ih _ _ hok ?_
      intro cv hcv
      rcases mem_dictSet out col (pyStrip v) cv hcv with h | h
      · exact ⟨v, by rw [h]⟩
      · exact hinv cv h
    · simp only [applyCols, if_neg hrange] at hok
      exact ih _ _ hok hinv

theorem apply_separators_aux_values (fname : Text) :
    ∀ (mapping : List (Text × List (Text × Int))) out out2,
      apply_separators_aux fname mapping out = .ok out2 →
      (∀ cv ∈ out, ∃ u, cv.2 = pyStrip u) →
      ∀ cv ∈ out2, ∃ u, cv.2 = pyStrip u := by
  intro mapping
  induction mapping with
  | nil =>
    intro out out2 hok hinv
    injection hok with h
    exact h ▸ hinv
  | cons sc rest ih =>
    intro out out2 hok hinv
    obtain ⟨sep, cols⟩ := sc
    cases sep with
    | nil => exact absurd hok (by simp [apply_separators_aux])
    | cons q qs =>
      simp only [apply_separators_aux] at hok
      cases hmid : applyCols (pySplit q qs fname) cols out with
      | error e => rw [hmid] at hok; exact absurd hok (by simp)
      | ok outMid =>
        rw [hmid] at hok
        exact ih outMid out2 hok (applyCols_values _ cols out outMid hmid hinv)

/-- C10: every value `apply_separators` returns is a stripped split part, so
it neither starts nor ends with whitespace. -/
theorem C10_apply_separators_values_stripped :
    ∀ (fname : Text) (mapping : List (Text × List (Text × Int)))
      (out : List (Text × Text)),
      apply_separators fname mapping = .ok out →
      ∀ cv ∈ out,
        (∃ u, cv.2 = pyStrip u) ∧
        (∀ c, cv.2.head? = some c → isPySpace c = false) ∧
        (∀ c, cv.2.getLast? = some c → isPySpace c = false) := by
  intro fname mapping out hok cv hcv
  have hstr := apply_separators_aux_values fname mapping [] out hok
    (by intro cv hcv; simp at hcv) cv hcv
  obtain ⟨u, hu⟩ := hstr
  refine ⟨⟨u, hu⟩, ?_, ?_⟩
  · intro c hc
    rw [hu] at hc
    exact pyStrip_head u c hc
  · intro c hc
    rw [hu] at hc
    exact pyStrip_last u c hc

/-- Witness for `C10_apply_separators_values_stripped` on the spec's example:
the `category` value `"2023"` is stripped and has no whitespace at either
end. -/
theorem C10_apply_separators_values_stripped_witness :
    apply_separators (lit "2023_report.final.pdf")
      [(lit "_", [(lit "category", -2)]), (lit ".", [(lit "ext", -1)])] =
      .ok [(lit "category", lit "2023"), (lit "ext", lit "pdf")] ∧
    ((∃ u, (lit "category", lit "2023").2 = pyStrip u) ∧
     (∀ c, (lit "category", lit "2023").2.head? = some c → isPySpace c = false) ∧
     (∀ c, (lit "category", lit "2023").2.getLast? = some c → isPySpace c = false)) :=
  ⟨by rfl,
   C10_apply_separators_values_stripped (lit "2023_report.final.pdf")
     [(lit "_", [(lit "category", -2)]), (lit ".", [(lit "ext", -1)])]
     [(lit "category", lit "2023"), (lit "ext", lit "pdf")] (by rfl)
     (lit "category", lit "2023") (by decide)⟩

/-- C5 counterexample: the resolution step of `search_pdfs` neither
deduplicates (a path listed twice is processed twice) nor expands glob
patterns inside a list argument (only a single *string* containing `*` is
globbed). -/
theorem C5_resolvePdfs_counterexample :
    resolvePdfs (.paths [lit "b.pdf", lit "a.pdf", lit "a.pdf"]) (fun _ => []) =
      [lit "a.pdf", lit "a.pdf", lit "b.pdf"] ∧
    ¬ (resolvePdfs (.paths [lit "b.pdf", lit "a.pdf", lit "a.pdf"]) (fun _ => [])).Nodup ∧
    (resolvePdfs (.paths [lit "b.pdf", lit "a.pdf", lit "a.pdf"]) (fun _ => [])).count
      (lit "a.pdf") = 2 ∧
    resolvePdfs (.paths [lit "*.pdf"]) (fun _ => [lit "x.pdf"]) = [lit "*.pdf"] := by
  refine ⟨by decide, by decide, by decide, by decide⟩

/-- C5 (amended): `search_pdfs` resolves its input to a lexicographically
sorted list of paths before processing; a list input is sorted as given
(duplicates retained, globs not expanded), a single string is glob-expanded
exactly when it contains `*` and otherwise taken literally. -/
theorem C5_resolvePdfs_sorted :
    (∀ (input : BatchInput) (globFn : Text → List Text),
      List.Sorted pathLe (resolvePdfs input globFn)) ∧
    (∀ (l : List Text) (globFn : Text → List Text),
      (resolvePdfs (.paths l) globFn).Perm l) ∧
    (∀ (s : Text) (globFn : Text → List Text), '*' ∈ s →
      (resolvePdfs (.pattern s) globFn).Perm (globFn s)) ∧
    (∀ (s : Text) (globFn : Text → List Text), '*' ∉ s →
      resolvePdfs (.pattern s) globFn = [s]) := by
  refine ⟨?_, ?_, ?_, ?_⟩
  · intro input globFn
    cases input with
    | pattern s => exact List.sorted_insertionSort pathLe _
    | paths l => exact List.sorted_insertionSort pathLe _
  · intro l globFn
    exact List.perm_insertionSort pathLe l
  · intro s globFn hs
    show (List.insertionSort pathLe (if '*' ∈ s then globFn s else [s])).Perm (globFn s)
    rw [if_pos hs]
    exact List.perm_insertionSort pathLe _
  · intro s globFn hs
    show List.insertionSort pathLe (if '*' ∈ s then globFn s else [s]) = [s]
    rw [if_neg hs]
    rfl

/-- Witness for `C5_resolvePdfs_sorted` at concrete inputs. -/
theorem C5_resolvePdfs_sorted_witness :
    ('*' ∈ lit "*.pdf") ∧
    (resolvePdfs (.pattern (lit "*.pdf")) (fun _ => [lit "b.pdf", lit "a.pdf"])).Perm
      [lit "b.pdf", lit "a.pdf"] ∧
    ('*' ∉ lit "doc.pdf") ∧
    resolvePdfs (.pattern (lit "doc.pdf")) (fun _ => []) = [lit "doc.pdf"] :=
  ⟨by decide,
   C5_resolvePdfs_sorted.2.2.1 (lit "*.pdf") (fun _ => [lit "b.pdf", lit "a.pdf"]) (by decide),
   by decide,
   C5_resolvePdfs_sorted.2.2.2 (lit "doc.pdf") (fun _ => []) (by decide)⟩

/-- C7: when the resolved document list is empty, `search_pdfs` raises the
no-documents error before any document is processed; it never returns a
table. -/
theorem C7_search_pdfs_noDocuments :
    ∀ (input : BatchInput) (cfg : SearchConfig) (hasPdfminer : Bool)
      (extractP : Text → Except ExtractionErr (List Text))
      (countA : Text → Except ExtractionErr Nat)
      (extractA : Text → Except ExtractionErr (List Text))
      (nf : Text → Text) (globFn : Text → List Text),
      resolvePdfs input globFn = [] →
      search_pdfs input cfg hasPdfminer extractP countA extractA nf globFn =
        .error (.noDocuments "No PDF files matched the given pattern(s).") ∧
      ∀ rows, search_pdfs input cfg hasPdfminer extractP countA extractA nf globFn ≠
        .ok rows := by
  intro input cfg hasPdfminer eP cA eA nf globFn hempty
  have hfail : search_pdfs input cfg hasPdfminer eP cA eA nf globFn =
      .error (.noDocuments "No PDF files matched the given pattern(s).") := by
    unfold search_pdfs
    rw [if_pos hempty]
  refine ⟨hfail, ?_⟩
  intro rows hok
  rw [hfail] at hok
  exact Except.noConfusion hok

/-- Witness for `C7_search_pdfs_noDocuments`: an empty path list resolves to
the empty list and the batch fails with the no-documents error. -/
theorem C7_search_pdfs_noDocuments_witness :
    resolvePdfs (.paths []) (fun _ => []) = [] ∧
    search_pdfs (.paths []) { words := [lit "a"] } false (fun _ => .ok [])
      (fun _ => .ok 0) (fun _ => .ok []) id (fun _ => []) =
      .error (.noDocuments "No PDF files matched the given pattern(s).") :=
  ⟨by decide,
   (C7_search_pdfs_noDocuments (.paths []) { words := [lit "a"] } false (fun _ => .ok [])
     (fun _ => .ok 0) (fun _ => .ok []) id (fun _ => []) (by decide)).1⟩

/-!
## Row-key machinery (claims about column sets)
-/

/-- Key-level effect of one `dict` insertion: an existing key keeps its
position, a new key is appended. -/
def insKey (ks : List Text) (k : Text) : List Text :=
  if k ∈ ks then ks else ks ++ [k]

theorem rowKeys_rowSet (r : Row) (k : Text) (v : Scalar) :
    rowKeys (rowSet r k v) = insKey (rowKeys r) k := keys_dictSet r k v

theorem mem_insKey_self (ks : List Text) (k : Text) : k ∈ insKey ks k := by
  unfold insKey
  by_cases h : k ∈ ks
  · rw [if_pos h]; exact h
  · rw [if_neg h]; simp

theorem mem_insKey_of_mem (ks : List Text) (k x : Text) (hx : x ∈ ks) : x ∈ insKey ks k := by
  unfold insKey
  by_cases h : k ∈ ks
  · rw [if_pos h]; exact hx
  · rw [if_neg h]; simp [hx]

theorem insKey_of_mem (ks : List Text) (k : Text) (h : k ∈ ks) : insKey ks k = ks :=
  if_pos h

theorem nodup_insKey (ks : List Text) (k : Text) (h : ks.Nodup) : (insKey ks k).Nodup := by
  unfold insKey
  by_cases hm : k ∈ ks
  · rw [if_pos hm]; exact h
  · rw [if_neg hm, List.nodup_append]
    refine ⟨h, List.nodup_singleton k, ?_⟩
    intro a ha hb
    rw [List.mem_singleton] at hb
    subst hb
    exact hm ha

theorem rowKeys_setFold (vf : Text → Scalar) (ws : List Text) :
    ∀ r : Row, rowKeys (ws.foldl (fun r w => rowSet r w (vf w)) r) =
      ws.foldl insKey (rowKeys r) := by
  induction ws with
  | nil => intro r; rfl
  | cons w ws ih =>
    intro r
    rw [List.foldl_cons, List.foldl_cons, ih, rowKeys_rowSet]

theorem rowKeys_colsFold (cols : List (Text × Text)) :
    ∀ r : Row, rowKeys (cols.foldl (fun r cv => rowSet r cv.1 (.str cv.2)) r) =
      (cols.map Prod.fst).foldl insKey (rowKeys r) := by
  induction cols with
  | nil => intro r; rfl
  | cons cv cols ih =>
    intro r
    rw [List.foldl_cons, List.map_cons, List.foldl_cons, ih, rowKeys_rowSet]

theorem rowKeys_addFold (c : Text → Nat) (ws : List Text) :
    ∀ r : Row, rowKeys (ws.foldl (fun r w => rowAdd r w (c w)) r) = rowKeys r := by
  induction ws with
  | nil => intro r; rfl
  | cons w ws ih =>
    intro r
    rw [List.foldl_cons, ih, rowKeys_rowAdd]

theorem rowKeys_pageFold (cnt : Text → Text → Nat) (uniq : List Text) :
    ∀ (ts : List Text) (r : Row),
      rowKeys (ts.foldl
        (fun r t => uniq.foldl (fun r w => rowAdd r w (cnt w t)) r) r) = rowKeys r := by
  intro ts
  induction ts with
  | nil => intro r; rfl
  | cons t ts ih =>
    intro r
    rw [List.foldl_cons, ih, rowKeys_addFold]

theorem nodup_foldl_insKey (ws : List Text) :
    ∀ ks, ks.Nodup → (ws.foldl insKey ks).Nodup := by
  induction ws with
  | nil => intro ks h; exact h
  | cons w ws ih =>
    intro ks h
    rw [List.foldl_cons]
    exact ih _ (nodup_insKey ks w h)

theorem mem_foldl_insKey_of_mem (ws : List Text) :
    ∀ ks x, x ∈ ks → x ∈ ws.foldl insKey ks := by
  induction ws with
  | nil => intro ks x h; exact h
  | cons w ws ih =>
    intro ks x h
    rw [List.foldl_cons]
    exact ih _ x (mem_insKey_of_mem ks w x h)

theorem mem_foldl_insKey_self (ws : List Text) :
    ∀ ks w, w ∈ ws → w ∈ ws.foldl insKey ks := by
  induction ws with
  | nil => intro ks w h; simp at h
  | cons w' ws ih =>
    intro ks w h
    rw [List.foldl_cons]
    rcases List.mem_cons.mp h with hw | hw
    · subst hw
      exact mem_foldl_insKey_of_mem ws _ w (mem_insKey_self ks w)
    · exact ih _ w hw

theorem foldl_insKey_of_all_mem (ws : List Text) :
    ∀ ks, (∀ w ∈ ws, w ∈ ks) → ws.foldl insKey ks = ks := by
  induction ws with
  | nil => intro ks _; rfl
  | cons w ws ih =>
    intro ks h
    rw [List.foldl_cons, insKey_of_mem ks w (h w (List.mem_cons_self _ _))]
    exact ih ks (fun w' hw' => h w' (List.mem_cons_of_mem _ hw'))

/-- Key list of the filename/year head. -/
def baseKeys (cfg : SearchConfig) : List Text :=
  let k1 : List Text := if cfg.includeFilename then [lit "file"] else []
  if cfg.includeYear then insKey k1 (lit "year") else k1

/-- Key list of the skeleton before the word loop, given the
separator-derived column names. -/
def preWordKeys (cfg : SearchConfig) (sepKs : List Text) : List Text :=
  let k3 := sepKs.foldl insKey (baseKeys cfg)
  if cfg.includePages then insKey k3 (lit "pages") else k3

/-- Key list of the whole row skeleton. -/
def skelKeys (cfg : SearchConfig) (sepKs : List Text) : List Text :=
  cfg.words.foldl insKey (preWordKeys cfg sepKs)

theorem rowKeys_rowBase (cfg : SearchConfig) (pdf : Text) :
    rowKeys (rowBase cfg pdf) = baseKeys cfg := by
  unfold rowBase baseKeys
  cases hf : cfg.includeFilename <;> cases hy : cfg.includeYear <;> rfl

theorem rowKeys_rowSkeleton (cfg : SearchConfig) (pdf : Text) (cols : List (Text × Text)) :
    rowKeys (rowSkeleton cfg pdf cols) = skelKeys cfg (cols.map Prod.fst) := by
  unfold rowSkeleton skelKeys preWordKeys
  rw [rowKeys_setFold]
  congr 1
  cases hp : cfg.includePages
  · rw [if_neg Bool.false_ne_true, if_neg Bool.false_ne_true, rowKeys_colsFold,
      rowKeys_rowBase]
  · rw [if_pos rfl, if_pos rfl, rowKeys_rowSet, rowKeys_colsFold, rowKeys_rowBase]

theorem nodup_baseKeys (cfg : SearchConfig) : (baseKeys cfg).Nodup := by
  unfold baseKeys
  cases hy : cfg.includeYear
  · rw [if_neg Bool.false_ne_true]
    cases hf : cfg.includeFilename
    · rw [if_neg Bool.false_ne_true]; exact List.nodup_nil
    · rw [if_pos rfl]; exact List.nodup_singleton _
  · rw [if_pos rfl]
    apply nodup_insKey
    cases hf : cfg.includeFilename
    · rw [if_neg Bool.false_ne_true]; exact List.nodup_nil
    · rw [if_pos rfl]; exact List.nodup_singleton _

theorem nodup_skelKeys (cfg : SearchConfig) (sepKs : List Text) :
    (skelKeys cfg sepKs).Nodup := by
  unfold skelKeys preWordKeys
  apply nodup_foldl_insKey
  cases hp : cfg.includePages
  · rw [if_neg Bool.false_ne_true]
    exact nodup_foldl_insKey sepKs _ (nodup_baseKeys cfg)
  · rw [if_pos rfl]
    exact nodup_insKey _ _ (nodup_foldl_insKey sepKs _ (nodup_baseKeys cfg))

theorem pages_mem_skelKeys (cfg : SearchConfig) (sepKs : List Text)
    (hp : cfg.includePages = true) : lit "pages" ∈ skelKeys cfg sepKs := by
  unfold skelKeys preWordKeys
  apply mem_foldl_insKey_of_mem
  rw [hp, if_pos rfl]
  exact mem_insKey_self _ _

theorem words_mem_skelKeys (cfg : SearchConfig) (sepKs : List Text) (w : Text)
    (hw : w ∈ cfg.words) : w ∈ skelKeys cfg sepKs :=
  mem_foldl_insKey_self cfg.words _ w hw

theorem buildRow_ok_skeleton (cfg : SearchConfig) (pdf : Text) (r0 : Row)
    (hok : buildRow cfg pdf = .ok r0) : ∃ cols, r0 = rowSkeleton cfg pdf cols := by
  unfold buildRow at hok
  cases hs : sepCols cfg (sepArg cfg pdf) with
  | error e => rw [hs] at hok; exact absurd hok (by simp)
  | ok cols =>
    rw [hs] at hok
    injection hok with h
    exact ⟨cols, h.symm⟩

/-- Keys of a successful primary-branch row: the skeleton keys (the counting
loop and the page-count update never create keys). -/
theorem search_pdf_primary_keys (cfg : SearchConfig) (pdf : Text) (pageTexts : List Text)
    (nf : Text → Text) (r : Row)
    (hok : search_pdf_primary cfg pdf pageTexts nf = .ok r) :
    ∃ cols, rowKeys r = skelKeys cfg (cols.map Prod.fst) ∧
      buildRow cfg pdf = .ok (rowSkeleton cfg pdf cols) := by
  unfold search_pdf_primary at hok
  split at hok
  · exact absurd hok (by simp)
  · rename_i row0 hrow
    simp only [Except.ok.injEq] at hok
    subst hok
    obtain ⟨cols, hcols⟩ := buildRow_ok_skeleton cfg pdf row0 hrow
    refine ⟨cols, ?_, hcols ▸ hrow⟩
    rw [rowKeys_pageFold]
    cases hip : cfg.includePages
    · rw [if_neg Bool.false_ne_true, hcols, rowKeys_rowSkeleton]
    · rw [if_pos rfl, rowKeys_rowSet, hcols, rowKeys_rowSkeleton,
        insKey_of_mem _ _ (pages_mem_skelKeys cfg _ hip)]

/-- Keys of a successful alternate-branch row: also the skeleton keys. -/
theorem search_pdf_alternate_keys (cfg : SearchConfig) (pdf : Text) (pageCount : Nat)
    (pageTexts : List Text) (nf : Text → Text) (r : Row)
    (hok : search_pdf_alternate cfg pdf pageCount pageTexts nf = .ok r) :
    ∃ cols, rowKeys r = skelKeys cfg (cols.map Prod.fst) ∧
      buildRow cfg pdf = .ok (rowSkeleton cfg pdf cols) := by
  unfold search_pdf_alternate at hok
  split at hok
  · exact absurd hok (by simp)
  · rename_i row0 hrow
    simp only [Except.ok.injEq] at hok
    subst hok
    obtain ⟨cols, hcols⟩ := buildRow_ok_skeleton cfg pdf row0 hrow
    refine ⟨cols, ?_, hcols ▸ hrow⟩
    rw [rowKeys_setFold]
    have hrow1 : rowKeys (if cfg.includePages = true
        then rowSet row0 (lit "pages") (.int (pageCount : Int)) else row0) =
        skelKeys cfg (cols.map Prod.fst) := by
      cases hip : cfg.includePages
      · rw [if_neg Bool.false_ne_true, hcols, rowKeys_rowSkeleton]
      · rw [if_pos rfl, rowKeys_rowSet, hcols, rowKeys_rowSkeleton,
          insKey_of_mem _ _ (pages_mem_skelKeys cfg _ hip)]
    rw [hrow1]
    apply foldl_insKey_of_all_mem
    intro w hw
    exact words_mem_skelKeys cfg _ w ((mem_dedupFirst cfg.words w).mp hw)

/-- Any row a batch document search returns comes from one of the two
`search_pdf` branches. -/
theorem searchPdfDoc_ok_cases (cfg : SearchConfig) (hasPdfminer : Bool)
    (extractP : Text → Except ExtractionErr (List Text))
    (countA : Text → Except ExtractionErr Nat)
    (extractA : Text → Except ExtractionErr (List Text))
    (nf : Text → Text) (pdf : Text) (r : Row)
    (hok : searchPdfDoc cfg hasPdfminer extractP countA extractA nf pdf = .ok r) :
    (∃ texts, search_pdf_primary cfg pdf texts nf = .ok r) ∨
    (∃ n chunks, search_pdf_alternate cfg pdf n chunks nf = .ok r) := by
  unfold searchPdfDoc at hok
  split at hok
  · split at hok
    · exact absurd hok (by simp)
    · split at hok
      · exact absurd hok (by simp)
      · split at hok
        · exact absurd hok (by simp)
        · split at hok
          · exact absurd hok (by simp)
          · injection hok with h
            subst h
            exact Or.inr ⟨_, _, by assumption⟩
  · split at hok
    · exact absurd hok (by simp)
    · split at hok
      · exact absurd hok (by simp)
      · split at hok
        · exact absurd hok (by simp)
        · injection hok with h
          subst h
          exact Or.inl ⟨_, by assumption⟩

/-- C8 counterexample: with the duplicated term list `["a", "a"]`, the result
row carries exactly one `"a"` entry — `compile_words` builds a dict keyed by
the terms and the row is itself a dict — so duplicates are not independently
tracked. -/
theorem C8_duplicate_terms_counterexample :
    (search_pdf_primary { words := [lit "a", lit "a"] } (lit "d.pdf") [lit "aha"] id).toOption.map
      (fun r => (rowKeys r).count (lit "a")) = some 1 ∧ (1 : Nat) ≠ 2 := by
  constructor
  · rfl
  · decide

/-- C8 (amended): the result row of either `search_pdf` branch has pairwise
distinct column keys, so a term occurring several times in the input list
yields a single tracked count entry. -/
theorem C8_search_pdf_keys_nodup :
    (∀ (cfg : SearchConfig) (pdf : Text) (pageTexts : List Text) (nf : Text → Text) (r : Row),
      search_pdf_primary cfg pdf pageTexts nf = .ok r → (rowKeys r).Nodup) ∧
    (∀ (cfg : SearchConfig) (pdf : Text) (pageCount : Nat) (pageTexts : List Text)
      (nf : Text → Text) (r : Row),
      search_pdf_alternate cfg pdf pageCount pageTexts nf = .ok r → (rowKeys r).Nodup) := by
  constructor
  · intro cfg pdf pageTexts nf r hok
    obtain ⟨cols, hkeys, _⟩ := search_pdf_primary_keys cfg pdf pageTexts nf r hok
    rw [hkeys]
    exact nodup_skelKeys cfg _
  · intro cfg pdf pageCount pageTexts nf r hok
    obtain ⟨cols, hkeys, _⟩ := search_pdf_alternate_keys cfg pdf pageCount pageTexts nf r hok
    rw [hkeys]
    exact nodup_skelKeys cfg _

/-- Witness for `C8_search_pdf_keys_nodup` at a concrete duplicated-term
search. -/
theorem C8_search_pdf_keys_nodup_witness :
    search_pdf_primary { words := [lit "a", lit "a"] } (lit "d.pdf") [lit "aha"] id =
      .ok [(lit "file", .str (lit "d")), (lit "pages", .int 1), (lit "a", .int 2)] ∧
    (rowKeys [(lit "file", .str (lit "d")), (lit "pages", .int 1), (lit "a", .int 2)]).Nodup :=
  ⟨by rfl,
   C8_search_pdf_keys_nodup.1 { words := [lit "a", lit "a"] } (lit "d.pdf") [lit "aha"] id
     [(lit "file", .str (lit "d")), (lit "pages", .int 1), (lit "a", .int 2)] (by rfl)⟩

theorem buildRow_none (cfg : SearchConfig) (pdf : Text) (hsep : cfg.separators = none) :
    buildRow cfg pdf = .ok (rowSkeleton cfg pdf []) := by
  unfold buildRow sepCols
  rw [hsep]

/-- With no separator mapping, every successful per-document search yields a
row whose keys are exactly the configuration's skeleton keys. -/
theorem searchPdfDoc_keys_of_none (cfg : SearchConfig) (hasPdfminer : Bool)
    (extractP : Text → Except ExtractionErr (List Text))
    (countA : Text → Except ExtractionErr Nat)
    (extractA : Text → Except ExtractionErr (List Text))
    (nf : Text → Text) (pdf : Text) (r : Row)
    (hsep : cfg.separators = none)
    (hok : searchPdfDoc cfg hasPdfminer extractP countA extractA nf pdf = .ok r) :
    rowKeys r = skelKeys cfg [] := by
  have hcase := searchPdfDoc_ok_cases cfg hasPdfminer extractP countA extractA nf pdf r hok
  rcases hcase with ⟨texts, h⟩ | ⟨n, chunks, h⟩
  · obtain ⟨cols, hkeys, hbr⟩ := search_pdf_primary_keys cfg pdf texts nf r h
    rw [buildRow_none cfg pdf hsep] at hbr
    injection hbr with h2
    have h3 := congrArg rowKeys h2
    rw [rowKeys_rowSkeleton, rowKeys_rowSkeleton] at h3
    simp only [List.map_nil] at h3
    rw [hkeys, ← h3]
  · obtain ⟨cols, hkeys, hbr⟩ := search_pdf_alternate_keys cfg pdf n chunks nf r h
    rw [buildRow_none cfg pdf hsep] at hbr
    injection hbr with h2
    have h3 := congrArg rowKeys h2
    rw [rowKeys_rowSkeleton, rowKeys_rowSkeleton] at h3
    simp only [List.map_nil] at h3
    rw [hkeys, ← h3]

theorem searchPdfsGo_keys_of_none (cfg : SearchConfig) (hasPdfminer : Bool)
    (extractP : Text → Except ExtractionErr (List Text))
    (countA : Text → Except ExtractionErr Nat)
    (extractA : Text → Except ExtractionErr (List Text))
    (nf : Text → Text) (hsep : cfg.separators = none) :
    ∀ (ds : List Text) (rows : List Row),
      searchPdfsGo cfg hasPdfminer extractP countA extractA nf ds = .ok rows →
      ∀ r ∈ rows, rowKeys r = skelKeys cfg [] := by
  intro ds
  induction ds with
  | nil =>
    intro rows hok r hr
    injection hok with h
    rw [← h] at hr
    simp at hr
  | cons d ds ih =>
    intro rows hok r hr
    simp only [searchPdfsGo] at hok
    split at hok
    · exact absurd hok (by simp)
    · rename_i r0 hdoc
      split at hok
      · exact absurd hok (by simp)
      · rename_i rs hgo
        injection hok with h
        rw [← h] at hr
        rcases List.mem_cons.mp hr with hr0 | hrs
        · subst hr0
          exact searchPdfDoc_keys_of_none cfg hasPdfminer extractP countA extractA nf d r
            hsep hdoc
        · exact ih rs hgo r hrs

/-- C2 counterexample: one batch, one configuration (separator mapping
`{"_": {"cat": -2}}`), two documents; the row of `a_b.pdf` has a `cat`
column, the row of `c.pdf` does not — the rows of one batch do not share
their keys. -/
theorem C2_search_pdfs_keys_counterexample :
    (search_pdfs (.paths [lit "a_b.pdf", lit "c.pdf"])
        { words := [lit "w"], separators := some [(lit "_", [(lit "cat", -2)])] } false
        (fun _ => .ok [lit "x"]) (fun _ => .ok 0) (fun _ => .ok []) id
        (fun _ => [])).toOption.map (fun rows => rows.map rowKeys) =
      some [[lit "file", lit "cat", lit "pages", lit "w"],
            [lit "file", lit "pages", lit "w"]] ∧
    ([lit "file", lit "cat", lit "pages", lit "w"] : List Text) ≠
      [lit "file", lit "pages", lit "w"] := by
  constructor
  · rfl
  · decide

/-- C2 (amended): within one batch whose configuration carries no separator
mapping, all produced rows have exactly the same column keys in the same
order.  (With a separator mapping, a filename lacking the separator parts
omits the affected column, so the invariant only holds when the
separator-derived columns coincide across the batch's filenames.) -/
theorem C2_search_pdfs_same_keys :
    ∀ (input : BatchInput) (cfg : SearchConfig) (hasPdfminer : Bool)
      (extractP : Text → Except ExtractionErr (List Text))
      (countA : Text → Except ExtractionErr Nat)
      (extractA : Text → Except ExtractionErr (List Text))
      (nf : Text → Text) (globFn : Text → List Text) (rows : List Row),
      cfg.separators = none →
      search_pdfs input cfg hasPdfminer extractP countA extractA nf globFn = .ok rows →
      ∀ r ∈ rows, ∀ r' ∈ rows, rowKeys r = rowKeys r' := by
  intro input cfg hasPdfminer eP cA eA nf globFn rows hsep hok r hr r' hr'
  unfold search_pdfs at hok
  by_cases hres : resolvePdfs input globFn = []
  · rw [if_pos hres] at hok
    exact absurd hok (by simp)
  · rw [if_neg hres] at hok
    have h1 := searchPdfsGo_keys_of_none cfg hasPdfminer eP cA eA nf hsep _ rows hok r hr
    have h2 := searchPdfsGo_keys_of_none cfg hasPdfminer eP cA eA nf hsep _ rows hok r' hr'
    rw [h1, h2]

/-- Witness for `C2_search_pdfs_same_keys` on a concrete two-document
batch. -/
theorem C2_search_pdfs_same_keys_witness :
    search_pdfs (.paths [lit "a.pdf", lit "c.pdf"]) { words := [lit "w"] } false
      (fun _ => .ok [lit "w x"]) (fun _ => .ok 0) (fun _ => .ok []) id (fun _ => []) =
      .ok [[(lit "file", .str (lit "a")), (lit "pages", .int 1), (lit "w", .int 1)],
           [(lit "file", .str (lit "c")), (lit "pages", .int 1), (lit "w", .int 1)]] ∧
    rowKeys [(lit "file", .str (lit "a")), (lit "pages", .int 1), (lit "w", .int 1)] =
      rowKeys [(lit "file", .str (lit "c")), (lit "pages", .int 1), (lit "w", .int 1)] :=
  ⟨by rfl,
   C2_search_pdfs_same_keys (.paths [lit "a.pdf", lit "c.pdf"]) { words := [lit "w"] } false
     (fun _ => .ok [lit "w x"]) (fun _ => .ok 0) (fun _ => .ok []) id (fun _ => [])
     [[(lit "file", .str (lit "a")), (lit "pages", .int 1), (lit "w", .int 1)],
      [(lit "file", .str (lit "c")), (lit "pages", .int 1), (lit "w", .int 1)]]
     rfl (by rfl)
     [(lit "file", .str (lit "a")), (lit "pages", .int 1), (lit "w", .int 1)] (by decide)
     [(lit "file", .str (lit "c")), (lit "pages", .int 1), (lit "w", .int 1)] (by decide)⟩

/-- When the primary backend is selected and its extraction fails, the
per-document search propagates exactly that extraction error (the row
skeleton is built first, so it must not itself raise). -/
theorem searchPdfDoc_extraction_error (cfg : SearchConfig) (hasPdfminer : Bool)
    (extractP : Text → Except ExtractionErr (List Text))
    (countA : Text → Except ExtractionErr Nat)
    (extractA : Text → Except ExtractionErr (List Text))
    (nf : Text → Text) (pdf : Text) (ee : ExtractionErr)
    (husep : cfg.usePdfminer = false)
    (hbr : ∃ r0, buildRow cfg pdf = .ok r0)
    (hep : extractP pdf = .error ee) :
    searchPdfDoc cfg hasPdfminer extractP countA extractA nf pdf =
      .error (.extraction ee) := by
  obtain ⟨r0, hbr⟩ := hbr
  unfold searchPdfDoc
  rw [husep, Bool.false_and, if_neg Bool.false_ne_true, hbr, hep]

/-- When the primary backend is selected and both extraction and search
succeed, the per-document search returns the primary row. -/
theorem searchPdfDoc_primary_ok (cfg : SearchConfig) (hasPdfminer : Bool)
    (extractP : Text → Except ExtractionErr (List Text))
    (countA : Text → Except ExtractionErr Nat)
    (extractA : Text → Except ExtractionErr (List Text))
    (nf : Text → Text) (pdf : Text) (texts : List Text) (r : Row)
    (husep : cfg.usePdfminer = false)
    (hep : extractP pdf = .ok texts)
    (hprim : search_pdf_primary cfg pdf texts nf = .ok r) :
    searchPdfDoc cfg hasPdfminer extractP countA extractA nf pdf = .ok r := by
  have hbr : ∃ row0, buildRow cfg pdf = .ok row0 := by
    unfold search_pdf_primary at hprim
    split at hprim
    · exact absurd hprim (by simp)
    · rename_i row0 hrow
      exact ⟨row0, hrow⟩
  obtain ⟨row0, hbr⟩ := hbr
  unfold searchPdfDoc
  rw [husep, Bool.false_and, if_neg Bool.false_ne_true, hbr, hep]
  show (match search_pdf_primary cfg pdf texts nf with
    | Except.error e => Except.error (SearchError.valueError e)
    | Except.ok r => Except.ok r) = Except.ok r
  rw [hprim]

/-- The per-document search consults the extraction backends only at its own
document. -/
theorem searchPdfDoc_congr (cfg : SearchConfig) (hasPdfminer : Bool)
    (extractP extractP' : Text → Except ExtractionErr (List Text))
    (countA countA' : Text → Except ExtractionErr Nat)
    (extractA extractA' : Text → Except ExtractionErr (List Text))
    (nf : Text → Text) (d : Text)
    (h1 : extractP' d = extractP d) (h2 : countA' d = countA d)
    (h3 : extractA' d = extractA d) :
    searchPdfDoc cfg hasPdfminer extractP' countA' extractA' nf d =
      searchPdfDoc cfg hasPdfminer extractP countA extractA nf d := by
  unfold searchPdfDoc
  rw [h1, h2, h3]

/-- Serial fail-fast: if the documents before position `i` succeed and the
document at `i` fails, the whole serial loop returns that failure — the
already collected rows are discarded. -/
theorem searchPdfsGo_failfast (cfg : SearchConfig) (hasPdfminer : Bool)
    (extractP : Text → Except ExtractionErr (List Text))
    (countA : Text → Except ExtractionErr Nat)
    (extractA : Text → Except ExtractionErr (List Text))
    (nf : Text → Text) :
    ∀ (ds : List Text) (i : Nat) (hlt : i < ds.length) (e : SearchError),
      (∀ (j : Nat) (hj : j < ds.length), j < i →
        ∃ r, searchPdfDoc cfg hasPdfminer extractP countA extractA nf
          (ds.get ⟨j, hj⟩) = .ok r) →
      searchPdfDoc cfg hasPdfminer extractP countA extractA nf (ds.get ⟨i, hlt⟩) =
        .error e →
      searchPdfsGo cfg hasPdfminer extractP countA extractA nf ds =
        .error (.search e) := by
  intro ds
  induction ds with
  | nil => intro i hlt; exact absurd hlt (by simp)
  | cons d ds ih =>
    intro i hlt e hok hfail
    cases i with
    | zero =>
      simp only [searchPdfsGo]
      rw [show (d :: ds).get ⟨0, hlt⟩ = d from rfl] at hfail
      rw [hfail]
    | succ i =>
      obtain ⟨r0, hr0⟩ := hok 0 (by simp) (Nat.succ_pos i)
      rw [show (d :: ds).get ⟨0, by simp⟩ = d from rfl] at hr0
      simp only [searchPdfsGo]
      rw [hr0]
      have hgo := ih i (by simpa using hlt) e
        (by
          intro j hj hji
          have h := hok (j + 1) (by simpa using hj) (by omega)
          rwa [show (d :: ds).get ⟨j + 1, by simpa using hj⟩ = ds.get ⟨j, hj⟩ from rfl] at h)
        (by
          have h := hfail
          rwa [show (d :: ds).get ⟨i + 1, hlt⟩ =
            ds.get ⟨i, by simpa using hlt⟩ from rfl] at h)
      rw [hgo]

/-- C6 (serial mode): an extraction failure at some document of the sorted
list makes the whole `search_pdfs` call fail with that error, no table is
returned, already-completed rows are discarded, and later documents are
never consulted (the result is unchanged under any extractors agreeing on
the documents up to and including the failing one); a successful
single-document batch returns exactly the one primary-branch row, whose
counters hold the per-page match-count sums. -/
theorem C6_search_pdfs_serial :
    (∀ (input : BatchInput) (cfg : SearchConfig) (hasPdfminer : Bool)
       (extractP : Text → Except ExtractionErr (List Text))
       (countA : Text → Except ExtractionErr Nat)
       (extractA : Text → Except ExtractionErr (List Text))
       (nf : Text → Text) (globFn : Text → List Text)
       (i : Nat) (hlt : i < (resolvePdfs input globFn).length) (ee : ExtractionErr),
      cfg.usePdfminer = false →
      (∀ (j : Nat) (hj : j < (resolvePdfs input globFn).length), j < i →
        ∃ r, searchPdfDoc cfg hasPdfminer extractP countA extractA nf
          ((resolvePdfs input globFn).get ⟨j, hj⟩) = .ok r) →
      (∃ r0, buildRow cfg ((resolvePdfs input globFn).get ⟨i, hlt⟩) = .ok r0) →
      extractP ((resolvePdfs input globFn).get ⟨i, hlt⟩) = .error ee →
      (search_pdfs input cfg hasPdfminer extractP countA extractA nf globFn =
        .error (.search (.extraction ee)) ∧
       ∀ (extractP' : Text → Except ExtractionErr (List Text))
         (countA' : Text → Except ExtractionErr Nat)
         (extractA' : Text → Except ExtractionErr (List Text)),
         (∀ (j : Nat) (hj : j < (resolvePdfs input globFn).length), j ≤ i →
           extractP' ((resolvePdfs input globFn).get ⟨j, hj⟩) =
             extractP ((resolvePdfs input globFn).get ⟨j, hj⟩) ∧
           countA' ((resolvePdfs input globFn).get ⟨j, hj⟩) =
             countA ((resolvePdfs input globFn).get ⟨j, hj⟩) ∧
           extractA' ((resolvePdfs input globFn).get ⟨j, hj⟩) =
             extractA ((resolvePdfs input globFn).get ⟨j, hj⟩)) →
         search_pdfs input cfg hasPdfminer extractP' countA' extractA' nf globFn =
           .error (.search (.extraction ee)))) ∧
    (∀ (input : BatchInput) (cfg : SearchConfig) (hasPdfminer : Bool)
       (extractP : Text → Except ExtractionErr (List Text))
       (countA : Text → Except ExtractionErr Nat)
       (extractA : Text → Except ExtractionErr (List Text))
       (nf : Text → Text) (globFn : Text → List Text) (d : Text)
       (texts : List Text) (r : Row),
      cfg.usePdfminer = false →
      resolvePdfs input globFn = [d] →
      extractP d = .ok texts →
      search_pdf_primary cfg d texts nf = .ok r →
      (search_pdfs input cfg hasPdfminer extractP countA extractA nf globFn = .ok [r] ∧
       ∀ w ∈ cfg.words, (cfg.includePages = false ∨ w ≠ lit "pages") →
         rowGet? r w = some (.int ((texts.map
           (fun txt => countTerm cfg.ignoreCase w (procText cfg nf txt))).sum)))) := by
  constructor
  · intro input cfg hasPdfminer eP cA eA nf globFn i hlt ee husep hok hbr hep
    have hne : resolvePdfs input globFn ≠ [] := by
      intro h
      rw [h] at hlt
      simp at hlt
    have hfail := searchPdfDoc_extraction_error cfg hasPdfminer eP cA eA nf
      ((resolvePdfs input globFn).get ⟨i, hlt⟩) ee husep hbr hep
    constructor
    · unfold search_pdfs
      rw [if_neg hne]
      exact searchPdfsGo_failfast cfg hasPdfminer eP cA eA nf _ i hlt _ hok hfail
    · intro eP' cA' eA' hagree
      unfold search_pdfs
      rw [if_neg hne]
      apply searchPdfsGo_failfast cfg hasPdfminer eP' cA' eA' nf _ i hlt
      · intro j hj hji
        obtain ⟨ha1, ha2, ha3⟩ := hagree j hj (Nat.le_of_lt hji)
        rw [searchPdfDoc_congr cfg hasPdfminer eP eP' cA cA' eA eA' nf _ ha1 ha2 ha3]
        exact hok j hj hji
      · obtain ⟨ha1, ha2, ha3⟩ := hagree i hlt (Nat.le_refl i)
        rw [searchPdfDoc_congr cfg hasPdfminer eP eP' cA cA' eA eA' nf _ ha1 ha2 ha3]
        exact hfail
  · intro input cfg hasPdfminer eP cA eA nf globFn d texts r husep hres hep hprim
    have hdoc := searchPdfDoc_primary_ok cfg hasPdfminer eP cA eA nf d texts r
      husep hep hprim
    constructor
    · unfold search_pdfs
      rw [hres, if_neg (by simp)]
      simp only [searchPdfsGo]
      rw [hdoc]
    · intro w hw hpg
      exact search_pdf_primary_get cfg d texts nf r w hprim hw hpg

/-- Witness for `C6_search_pdfs_serial`: a two-document batch whose second
(sorted) document fails extraction yields exactly that extraction error, and
a one-document batch yields the one-row table with the per-page count sum. -/
theorem C6_search_pdfs_serial_witness :
    search_pdfs (.paths [lit "a.pdf", lit "b.pdf"]) { words := [lit "t"] } false
      (fun p => if p = lit "b.pdf" then .error ⟨lit "corrupt"⟩ else .ok [lit "z"])
      (fun _ => .ok 0) (fun _ => .ok []) id (fun _ => []) =
      .error (.search (.extraction ⟨lit "corrupt"⟩)) ∧
    search_pdfs (.paths [lit "a.pdf"]) { words := [lit "t"] } false
      (fun _ => .ok [lit "t t"]) (fun _ => .ok 0) (fun _ => .ok []) id (fun _ => []) =
      .ok [[(lit "file", .str (lit "a")), (lit "pages", .int 1), (lit "t", .int 2)]] ∧
    rowGet? [(lit "file", .str (lit "a")), (lit "pages", .int 1), (lit "t", .int 2)]
      (lit "t") = some (.int 2) := by
  refine ⟨?_, ?_, ?_⟩
  · exact (C6_search_pdfs_serial.1 (.paths [lit "a.pdf", lit "b.pdf"])
      { words := [lit "t"] } false
      (fun p => if p = lit "b.pdf" then .error ⟨lit "corrupt"⟩ else .ok [lit "z"])
      (fun _ => .ok 0) (fun _ => .ok []) id (fun _ => []) 1 (by decide)
      ⟨lit "corrupt"⟩ rfl
      (fun j hj hji => by
        have hj0 : j = 0 := by omega
        subst hj0
        exact ⟨_, rfl⟩)
      ⟨_, rfl⟩ rfl).1
  · exact (C6_search_pdfs_serial.2 (.paths [lit "a.pdf"]) { words := [lit "t"] } false
      (fun _ => .ok [lit "t t"]) (fun _ => .ok 0) (fun _ => .ok []) id (fun _ => [])
      (lit "a.pdf") [lit "t t"]
      [(lit "file", .str (lit "a")), (lit "pages", .int 1), (lit "t", .int 2)]
      rfl (by rfl) rfl (by rfl)).1
  · exact (C6_search_pdfs_serial.2 (.paths [lit "a.pdf"]) { words := [lit "t"] } false
      (fun _ => .ok [lit "t t"]) (fun _ => .ok 0) (fun _ => .ok []) id (fun _ => [])
      (lit "a.pdf") [lit "t t"]
      [(lit "file", .str (lit "a")), (lit "pages", .int 1), (lit "t", .int 2)]
      rfl (by rfl) rfl (by rfl)).2 (lit "t") (by decide) (Or.inr (by decide))

/-!
## The modelled fragment of `re` patterns

`compile_words` hands each term string to `re.compile`, an external
collaborator with full regex semantics.  The fragment modelled here covers
the terms this development reasons about: metacharacter-free terms (literal
patterns, whose matches are exactly their substring occurrences) and, to
witness that the backend equivalence genuinely needs the literal
restriction, end-anchored literals `X$` (whose matching is relative to the
end of whatever text they are applied to, so it is *not* invariant under
splitting a document into pages).  Terms outside the fragment compile to
`none`.
-/

/-- The characters `re` treats as metacharacters (`. ^ $ * + ? { } [ ] \ | ( )`,
the braces and the backslash written by code point). -/
def isReMeta (c : Char) : Bool :=
  c == '.' || c == '^' || c == '$' || c == '*' || c == '+' || c == '?' ||
  c.toNat == 123 || c.toNat == 125 || c == '[' || c == ']' ||
  c.toNat == 92 || c == '|' || c == '(' || c == ')'

/-- A compiled pattern of the modelled `re` fragment. -/
inductive RePat
  | lit (t : Text)
  | litEnd (t : Text)
deriving DecidableEq

/-- The modelled fragment of `re.compile` on term strings: a
metacharacter-free term is a literal pattern; a non-empty, newline-free,
metacharacter-free body followed by a final `$` is an end-anchored literal
(the bare `"$"` and bodies with newlines are left out of the fragment, as
their zero-width end-of-line behaviour needs more of `re` than is modelled);
every other term is outside the fragment. -/
def reCompile (w : Text) : Option RePat :=
  if w.all (fun c => !(isReMeta c)) then some (.lit w)
  else
    match w.getLast? with
    | some '$' =>
      if w.dropLast ≠ [] ∧ w.dropLast.all (fun c => !(isReMeta c) && !(c == '\n')) then
        some (.litEnd w.dropLast)
      else none
    | _ => none

/-- `len(pat.findall(s))` on the modelled fragment: a literal counts its
non-overlapping substring occurrences; an end-anchored literal `X$` matches
at most once, when `X` ends the string (or stands just before a trailing
newline, per `$`'s semantics without `MULTILINE`). -/
def findallCount : RePat → Text → Nat
  | .lit t, s => countM t s
  | .litEnd t, s => if t.isSuffixOf s || (t ++ ['\n']).isSuffixOf s then 1 else 0

/-- The per-term count of `search_pdf`'s primary branch for a term compiled
to `p` (`row[w] += len(pat.findall(txt))`, summed over the per-page
texts). -/
def primaryTermCount (p : RePat) (pageTexts : List Text) : Nat :=
  (pageTexts.map (findallCount p)).sum

/-- The per-term count of the alternate branch for a term compiled to `p`
(`row[w] = len(pat.findall(text))` on the concatenated text). -/
def alternateTermCount (p : RePat) (pageTexts : List Text) : Nat :=
  findallCount p pageTexts.flatten

theorem effCase_flatten (ic : Bool) (ts : List Text) :
    effCase ic ts.flatten = (ts.map (effCase ic)).flatten := by
  cases ic
  · show ts.flatten = (ts.map (effCase false)).flatten
    have hfun : effCase false = fun s : Text => s := rfl
    rw [hfun, List.map_id']
  · show ts.flatten.map Char.toLower = (ts.map (effCase true)).flatten
    have hmap : ts.map (effCase true) = ts.map (List.map Char.toLower) := rfl
    rw [hmap]
    exact List.map_flatten Char.toLower ts

/-- C1 (amended): for both backend paths of `search_pdf` applied to the same
per-page texts, the per-term counts agree — both as the raw
`findall`-count values of the modelled `re` fragment and inside the result
rows — provided the term is a *literal* pattern (free of regex
metacharacters, so `reCompile` reads it as `RePat.lit`), Unicode
normalization is disabled or makes no difference, no occurrence of the
(effective) pattern spans a page boundary of the concatenation, the term is
non-empty, and the term does not collide with the `pages` column.  (The
empty term, a term literally named `pages` with the page-count column
enabled, and the genuinely context-sensitive regex term `"a$"` falsify the
unamended claim — see the counterexample.) -/
theorem C1_backend_equivalence :
    ∀ (cfg : SearchConfig) (pdf : Text) (pageCount : Nat) (pageTexts : List Text)
      (nf : Text → Text) (w : Text),
      cfg.words ≠ [] →
      w ∈ cfg.words →
      (cfg.normaliseUnicode = false ∨ ∀ s, nf s = s) →
      reCompile w = some (RePat.lit w) →
      w ≠ [] →
      (cfg.includePages = false ∨ w ≠ lit "pages") →
      (∀ nb ∈ internalBoundaries (pageTexts.map (effCase cfg.ignoreCase)),
        crossesAt (effCase cfg.ignoreCase w)
          ((pageTexts.map (effCase cfg.ignoreCase)).flatten) nb = false) →
      (primaryTermCount (RePat.lit (effCase cfg.ignoreCase w))
          (pageTexts.map (effCase cfg.ignoreCase)) =
        alternateTermCount (RePat.lit (effCase cfg.ignoreCase w))
          (pageTexts.map (effCase cfg.ignoreCase)) ∧
       Except.map (fun r => rowGet? r w) (search_pdf_primary cfg pdf pageTexts nf) =
         Except.map (fun r => rowGet? r w)
           (search_pdf_alternate cfg pdf pageCount pageTexts nf)) := by
  intro cfg pdf pageCount pageTexts nf w _ hw hnorm _ hwne hpg hcross
  refine ⟨?_, ?_⟩
  · show ((pageTexts.map (effCase cfg.ignoreCase)).map
        (countM (effCase cfg.ignoreCase w))).sum =
      countM (effCase cfg.ignoreCase w)
        ((pageTexts.map (effCase cfg.ignoreCase)).flatten)
    exact (countM_join (effCase cfg.ignoreCase w)
      (effCase_ne_nil cfg.ignoreCase w hwne)
      (pageTexts.map (effCase cfg.ignoreCase)) hcross).symm
  cases hb : buildRow cfg pdf with
  | error e =>
    rw [search_pdf_primary_error cfg pdf pageTexts nf e hb,
      search_pdf_alternate_error cfg pdf pageCount pageTexts nf e hb]
  | ok row0 =>
    have h1 : ∃ r1, search_pdf_primary cfg pdf pageTexts nf = .ok r1 := by
      unfold search_pdf_primary
      rw [hb]
      exact ⟨_, rfl⟩
    have h2 : ∃ r2, search_pdf_alternate cfg pdf pageCount pageTexts nf = .ok r2 := by
      unfold search_pdf_alternate
      rw [hb]
      exact ⟨_, rfl⟩
    obtain ⟨r1, h1⟩ := h1
    obtain ⟨r2, h2⟩ := h2
    rw [h1, h2]
    simp only [Except.map]
    congr 1
    rw [search_pdf_primary_get cfg pdf pageTexts nf r1 w h1 hw hpg,
      search_pdf_alternate_get cfg pdf pageCount pageTexts nf r2 w h2 hw]
    have key : (pageTexts.map
        (fun txt => countTerm cfg.ignoreCase w (procText cfg nf txt))).sum =
        countTerm cfg.ignoreCase w (procText cfg nf pageTexts.flatten) := by
      simp only [procText_eq_id cfg nf hnorm]
      unfold countTerm
      rw [effCase_flatten]
      rw [countM_join (effCase cfg.ignoreCase w) (effCase_ne_nil cfg.ignoreCase w hwne)
        (pageTexts.map (effCase cfg.ignoreCase)) hcross]
      rw [List.map_map]
      rfl
    rw [key]

/-- C1 counterexample: three instances where all of the claim's stated
hypotheses hold (non-empty term list, no match spans a page boundary,
normalization disabled) yet the two backend paths disagree.  First, the
empty term: `findall("")` counts one zero-width match per position, so
pages `["a", "b"]` give `1+1 + 1+1 = 4` on the primary path but `3` on the
concatenation.  Second, a term literally named `pages` with the page-count
column enabled: the primary path adds its counts onto the already-written
page count, the alternate path overwrites it.  Third, the regex term
`"a$"` on pages `["a", "a"]`: the end anchor matches once per page but
only once on the concatenation (2 vs 1), although every matched substring
lies entirely inside one page — so the equivalence genuinely needs the
terms to be literal patterns, not arbitrary regexes. -/
theorem C1_backend_equivalence_counterexample :
    ((∀ nb ∈ internalBoundaries ([lit "a", lit "b"].map (effCase false)),
        crossesAt (effCase false [])
          (([lit "a", lit "b"].map (effCase false)).flatten) nb = false) ∧
     (search_pdf_primary { words := [[]], ignoreCase := false, includePages := false }
        (lit "d.pdf") [lit "a", lit "b"] id).toOption.map (fun r => rowGet? r []) =
        some (some (.int 4)) ∧
     (search_pdf_alternate { words := [[]], ignoreCase := false, includePages := false }
        (lit "d.pdf") 2 [lit "a", lit "b"] id).toOption.map (fun r => rowGet? r []) =
        some (some (.int 3)) ∧
     (some (some (Scalar.int 4)) : Option (Option Scalar)) ≠ some (some (.int 3))) ∧
    ((∀ nb ∈ internalBoundaries ([lit "pages"].map (effCase false)),
        crossesAt (effCase false (lit "pages"))
          (([lit "pages"].map (effCase false)).flatten) nb = false) ∧
     (search_pdf_primary { words := [lit "pages"], ignoreCase := false }
        (lit "d.pdf") [lit "pages"] id).toOption.map (fun r => rowGet? r (lit "pages")) =
        some (some (.int 2)) ∧
     (search_pdf_alternate { words := [lit "pages"], ignoreCase := false }
        (lit "d.pdf") 1 [lit "pages"] id).toOption.map (fun r => rowGet? r (lit "pages")) =
        some (some (.int 1)) ∧
     (some (some (Scalar.int 2)) : Option (Option Scalar)) ≠ some (some (.int 1))) ∧
    (reCompile (lit "a$") = some (RePat.litEnd (lit "a")) ∧
     (∀ nb ∈ internalBoundaries ([lit "a", lit "a"] : List Text),
        crossesAt (lit "a") (([lit "a", lit "a"] : List Text).flatten) nb = false) ∧
     primaryTermCount (RePat.litEnd (lit "a")) [lit "a", lit "a"] = 2 ∧
     alternateTermCount (RePat.litEnd (lit "a")) [lit "a", lit "a"] = 1 ∧
     (2 : Nat) ≠ 1) := by
  refine ⟨⟨by decide, by rfl, by rfl, by decide⟩,
    ⟨by decide, by rfl, by rfl, by decide⟩,
    ⟨by decide, by decide, by decide, by decide, by decide⟩⟩

/-- Witness for `C1_backend_equivalence` at a concrete literal-term
search. -/
theorem C1_backend_equivalence_witness :
    (({ words := [lit "ab"], ignoreCase := false } : SearchConfig).words ≠ []) ∧
    (lit "ab" ∈ ({ words := [lit "ab"], ignoreCase := false } : SearchConfig).words) ∧
    reCompile (lit "ab") = some (RePat.lit (lit "ab")) ∧
    (lit "ab" ≠ ([] : Text)) ∧
    (lit "ab" ≠ lit "pages") ∧
    (∀ nb ∈ internalBoundaries ([lit "abx", lit "ab"].map (effCase false)),
      crossesAt (effCase false (lit "ab"))
        (([lit "abx", lit "ab"].map (effCase false)).flatten) nb = false) ∧
    (primaryTermCount (RePat.lit (effCase false (lit "ab")))
        ([lit "abx", lit "ab"].map (effCase false)) =
      alternateTermCount (RePat.lit (effCase false (lit "ab")))
        ([lit "abx", lit "ab"].map (effCase false)) ∧
     Except.map (fun r => rowGet? r (lit "ab"))
       (search_pdf_primary { words := [lit "ab"], ignoreCase := false }
         (lit "d.pdf") [lit "abx", lit "ab"] id) =
       Except.map (fun r => rowGet? r (lit "ab"))
         (search_pdf_alternate { words := [lit "ab"], ignoreCase := false }
           (lit "d.pdf") 2 [lit "abx", lit "ab"] id)) :=
  ⟨by decide, by decide, by decide, by decide, by decide, by decide,
   C1_backend_equivalence { words := [lit "ab"], ignoreCase := false }
     (lit "d.pdf") 2 [lit "abx", lit "ab"] id (lit "ab")
     (by decide) (by decide) (Or.inl rfl) (by decide) (by decide)
     (Or.inr (by decide)) (by decide)⟩
